import Mathlib

/-!
Verification development for the screenshot_processor repository
(`image_comparator.py`, `image_splitter.py`, `main.py`, `scratchpad.py`).

The Python code is shallowly embedded:
* strings are `String`, compared by Unicode code point as Python does;
* images are grids of grayscale intensities (`GrayImage`);
* the filesystem is an explicit state (`FS`);
* external libraries (image decoding, the SSIM scoring function, and the
  success or failure of filesystem calls) are oracles in an `Env` record;
* a caught exception is modelled by the handler's result, an uncaught one
  (the `NameError` in `run_duplicate_detection`'s warning branch) by an
  `Except.error` outcome.
-/

/-! ### Python string primitives -/

/-- Python string comparison `a <= b`: lexicographic by Unicode code point. -/
def lexLe : List Char → List Char → Bool
  | [], _ => true
  | _ :: _, [] => false
  | c :: cs, d :: ds =>
    if c.toNat < d.toNat then true
    else if d.toNat < c.toNat then false
    else lexLe cs ds

/-- Python `a <= b` on strings. -/
def strLe (a b : String) : Bool := lexLe a.data b.data

/-- `strLe` as a relation, for use with `List.insertionSort`. -/
def strLeR (a b : String) : Prop := strLe a b = true

instance : DecidableRel strLeR := fun a b => instDecidableEqBool (strLe a b) true

/-- Python `sub in s`: substring containment over the character list. -/
def charsContain (hay sub : List Char) : Bool :=
  match hay with
  | [] => sub.isEmpty
  | _ :: t => sub.isPrefixOf hay || charsContain t sub

/-- Python `sub in s` on strings. -/
def containsSub (s sub : String) : Bool := charsContain s.data sub.data

/-- Split a character list at the LAST occurrence of `c`:
returns `(before, after)` with the separator dropped, or `none`. -/
def splitAtLastChar (c : Char) : List Char → Option (List Char × List Char)
  | [] => none
  | a :: t =>
    match splitAtLastChar c t with
    | some (pre, suf) => some (a :: pre, suf)
    | none => if a = c then some ([], t) else none

/-- Python `os.path.splitext` on a basename: split at the last dot, except
when every character before it is a dot (e.g. `.bashrc`). -/
def splitext (s : String) : String × String :=
  match splitAtLastChar '.' s.data with
  | some (pre, suf) =>
    if pre.all (· = '.') then (s, "") else (⟨pre⟩, ⟨'.' :: suf⟩)
  | none => (s, "")

/-- The duplicate marker substring. -/
def dupMark : String := "-DUP"

/-- `f"{base}-DUP{ext}"` as in both sweep implementations. -/
def dupName (f : String) : String :=
  let p := splitext f
  p.1 ++ dupMark ++ p.2

/-- Python `os.path.basename` (POSIX): the part after the last `/`. -/
def pyBasename (p : String) : String :=
  match splitAtLastChar '/' p.data with
  | some (_, suf) => ⟨suf⟩
  | none => p

/-- Python `os.path.dirname` (POSIX, simplified to slash-free components):
the part before the last `/`, or `""` when there is none. -/
def pyDirname (p : String) : String :=
  match splitAtLastChar '/' p.data with
  | some (pre, _) => ⟨pre⟩
  | none => ""

/-- Python `s.startswith(t)`. -/
def startsWithStr (s t : String) : Bool := t.data.isPrefixOf s.data

/-- Python `s.endswith(t)`. -/
def endsWithStr (s t : String) : Bool := t.data.isSuffixOf s.data

/-- Python `os.path.join` for one component (POSIX). -/
def pathJoin (a b : String) : String :=
  if startsWithStr b "/" then b
  else if a = "" then b
  else if endsWithStr a "/" then a ++ b
  else a ++ "/" ++ b

/-- ASCII lowercase of a string (Python `str.lower` restricted to the
ASCII range, which covers the extension literals it is compared with). -/
def lowerStr (s : String) : String := ⟨s.data.map Char.toLower⟩

/-- `f.lower().endswith((".jpg", ".jpeg", ".png"))`. -/
def isImageName (f : String) : Bool :=
  endsWithStr (lowerStr f) ".jpg" || endsWithStr (lowerStr f) ".jpeg" ||
    endsWithStr (lowerStr f) ".png"

/-- Python `sorted` on filenames. -/
def sortStrings (l : List String) : List String := List.insertionSort strLeR l

/-! ### Python numeric primitives -/

/-- Python `int(w * frac)` computed exactly: `w * frac = (w * frac.num) / frac.den`
and `int` truncates toward zero. -/
def pyIntMul (w : Nat) (frac : ℚ) : ℤ := Int.tdiv ((w : ℤ) * frac.num) (frac.den : ℤ)

/-- `⌊w * frac⌋`, the floor the specification describes, computed exactly. -/
def ratFloorMul (w : Nat) (frac : ℚ) : ℤ := Int.fdiv ((w : ℤ) * frac.num) (frac.den : ℤ)

/-! ### Images and numpy-style operations -/

/-- A decoded grayscale image: the PIL `size` fields `w`/`h` and the numpy
pixel array `rows` (row-major, `rows[r][c]` an 8-bit intensity). -/
structure GrayImage where
  w : Nat
  h : Nat
  rows : List (List Nat)
deriving DecidableEq

/-- `np.array(img).shape` for a 2-d grayscale array: `(height, width)`. -/
def npShape (i : GrayImage) : Nat × Nat := (i.rows.length, (i.rows.headD []).length)

/-- A really-decoded image is rectangular and its array agrees with its size. -/
def ImgWF (i : GrayImage) : Prop :=
  i.rows.length = i.h ∧ ∀ r ∈ i.rows, r.length = i.w

/-- Python slice `l[a:b]` (step 1): negative indices count from the end,
then both bounds are clamped to `[0, len]`. -/
def pySlice {α : Type} (l : List α) (a b : ℤ) : List α :=
  let n : ℤ := l.length
  let s := if a < 0 then max 0 (n + a) else min a n
  let e := if b < 0 then max 0 (n + b) else min b n
  (l.take e.toNat).drop s.toNat

/-- numpy 2-d slice `arr[top:bottom, left:right]`. -/
def npCrop (rows : List (List Nat)) (top bottom left right : ℤ) : List (List Nat) :=
  (pySlice rows top bottom).map (fun row => pySlice row left right)

/-- `arr.max()`: `none` models the ValueError numpy raises on an empty array. -/
def npMax (rows : List (List Nat)) : Option Nat := rows.flatten.max?

/-- `arr.min()`, same convention. -/
def npMin (rows : List (List Nat)) : Option Nat := rows.flatten.min?

/-! ### Filesystem state and the external-world oracle -/

/-- A regular file on disk: its full path and (for image files) its decoded
pixel content. For non-image bytes only the path matters. -/
structure FileEntry where
  path : String
  img : GrayImage
deriving DecidableEq

/-- Filesystem state: the directories and regular files that exist. -/
structure FS where
  dirs : List String
  files : List FileEntry
deriving DecidableEq

/-- The external world: whether decoding succeeds for a file, the SSIM
scoring function (with its `data_range` argument; `none` models a raised
exception), and whether each save/remove/rename call succeeds. -/
structure Env where
  decodeOk : String → Bool
  ssim : List (List Nat) → List (List Nat) → ℚ → Option ℚ
  saveOk : String → Bool
  removeOk : String → Bool
  renameOk : String → String → Bool

def findFile (fs : FS) (p : String) : Option FileEntry :=
  fs.files.find? (fun e => e.path = p)

def isfileF (fs : FS) (p : String) : Bool := (findFile fs p).isSome

def isdirF (fs : FS) (p : String) : Bool := fs.dirs.any (fun d => d = p)

/-- `os.path.exists`. -/
def existsF (fs : FS) (p : String) : Bool := isfileF fs p || isdirF fs p

/-- `os.makedirs(d, exist_ok=True)`. -/
def mkdirF (fs : FS) (d : String) : FS :=
  if isdirF fs d then fs else { fs with dirs := d :: fs.dirs }

/-- `img.save(p)`: overwrites any existing file at `p`. -/
def saveFile (fs : FS) (p : String) (img : GrayImage) : FS :=
  { fs with files := (fs.files.filter (fun e => e.path ≠ p)) ++ [⟨p, img⟩] }

/-- `os.remove(p)`. -/
def removeFile (fs : FS) (p : String) : FS :=
  { fs with files := fs.files.filter (fun e => e.path ≠ p) }

/-- `os.rename(old, new)` (POSIX: replaces an existing `new`). -/
def renameFS (fs : FS) (old new : String) : FS :=
  let moved := (fs.files.filter (fun e => e.path ≠ new)).map
    (fun e => if e.path = old then ⟨new, e.img⟩ else e)
  { fs with files := moved }

/-- `os.listdir folder` (for the flat layouts this tool works on):
the basenames of the files and directories directly inside `folder`. -/
def osListdir (fs : FS) (folder : String) : List String :=
  (fs.files.filter (fun e => pyDirname e.path = folder)).map (fun e => pyBasename e.path)
    ++ (fs.dirs.filter (fun d => pyDirname d = folder)).map pyBasename

/-- `Image.open(p).convert("L")`: fails (raises) when the file is missing
or the bytes do not decode. -/
def decodeImg (env : Env) (fs : FS) (p : String) : Option GrayImage :=
  match findFile fs p with
  | some e => if env.decodeOk p then some e.img else none
  | none => none

/-! ### `image_comparator.compare_images_visually` -/

/-- `compare_images_visually` of `image_comparator.py` (lines 9-61).
Returns `true` when the two images are judged materially different. -/
def compare_images_visually (env : Env) (fs : FS) (img1_path img2_path : String)
    (inner_rectangle_percentage ssim_similarity_threshold : ℚ) : Bool :=
  match decodeImg env fs img1_path, decodeImg env fs img2_path with
  | some img1, some img2 =>
    if npShape img1 ≠ npShape img2 then true
    else
      let crop_width : ℤ := pyIntMul img1.w inner_rectangle_percentage
      let crop_height : ℤ := pyIntMul img1.h inner_rectangle_percentage
      let left := Int.fdiv ((img1.w : ℤ) - crop_width) 2
      let top := Int.fdiv ((img1.h : ℤ) - crop_height) 2
      let right := left + crop_width
      let bottom := top + crop_height
      if crop_width ≤ 0 ∨ crop_height ≤ 0 then true
      else
        let img1_cropped := npCrop img1.rows top bottom left right
        let img2_cropped := npCrop img2.rows top bottom left right
        match env.ssim img1_cropped img2_cropped 255 with
        | some similarity_index => decide (similarity_index < ssim_similarity_threshold)
        | none => true
  | _, _ => true

/-! ### `scratchpad.compare_images_visually` (the Legacy Prototype) -/

/-- `compare_images_visually` of `scratchpad.py` (lines 42-98).
Note: no degenerate-crop guard, `data_range = crop1.max() - crop1.min()`,
a fixed `SSIM_THRESHOLD = 0.95`, and the `material_difference_threshold`
parameter is never read. -/
def scratch_compare_images_visually (env : Env) (fs : FS) (img1_path img2_path : String)
    (inner_rectangle_percentage material_difference_threshold : ℚ) : Bool :=
  match decodeImg env fs img1_path, decodeImg env fs img2_path with
  | some img1, some img2 =>
    if npShape img1 ≠ npShape img2 then true
    else
      let crop_width : ℤ := pyIntMul img1.w inner_rectangle_percentage
      let crop_height : ℤ := pyIntMul img1.h inner_rectangle_percentage
      let left := Int.fdiv ((img1.w : ℤ) - crop_width) 2
      let top := Int.fdiv ((img1.h : ℤ) - crop_height) 2
      let right := left + crop_width
      let bottom := top + crop_height
      let img1_cropped := npCrop img1.rows top bottom left right
      let img2_cropped := npCrop img2.rows top bottom left right
      match npMax img1_cropped, npMin img1_cropped with
      | some mx, some mn =>
        match env.ssim img1_cropped img2_cropped ((mx - mn : ℕ) : ℚ) with
        | some similarity_index => decide (similarity_index < 19/20)
        | none => true
      | _, _ => true
  | _, _ => true

/-! ### `image_splitter.split_image_horizontally` -/

/-- `img.crop((l, t, r, b))` for a box inside the image: PIL reports
size `(r - l, b - t)`. -/
def pilCrop (img : GrayImage) (l t r b : Nat) : GrayImage :=
  ⟨r - l, b - t, ((img.rows.drop t).take (b - t)).map (fun row => (row.drop l).take (r - l))⟩

/-- `split_image_horizontally` of `image_splitter.py` (lines 7-44): returns
the filesystem after the call.  Every failure (open, save, remove) is caught,
leaving the effects performed so far in place. -/
def split_image_horizontally (env : Env) (fs : FS)
    (image_path left_output_folder right_output_folder : String) (split_width : Nat) : FS :=
  match findFile fs image_path with
  | none => fs
  | some e =>
    if env.decodeOk image_path = false then fs
    else if e.img.w ≤ split_width then fs
    else
      let base_name := (splitext (pyBasename image_path)).1
      let left_part := pilCrop e.img 0 0 split_width e.img.h
      let left_path := pathJoin left_output_folder (base_name ++ "-L.jpg")
      if env.saveOk left_path = false then fs
      else
        let fs1 := saveFile fs left_path left_part
        let right_part := pilCrop e.img split_width 0 e.img.w e.img.h
        let right_path := pathJoin right_output_folder (base_name ++ "-R.jpg")
        if env.saveOk right_path = false then fs1
        else
          let fs2 := saveFile fs1 right_path right_part
          if env.removeOk image_path = false then fs2
          else removeFile fs2 image_path

/-! ### Candidate-list computations -/

/-- The comparator's start-filename loop (`image_comparator.py` lines 77-87):
a `found_start_file` flag is set once a name `>=` the start is seen, and from
then on every non-`-DUP` name is kept. -/
def compFlagLoop (start : String) : List String → Bool → List String
  | [], _ => []
  | f :: t, found_start_file =>
    let found := if strLe start f then true else found_start_file
    if found && !containsSub f dupMark then f :: compFlagLoop start t found
    else compFlagLoop start t found

/-- The splitter CLI's start-filename loop (`image_splitter.py` lines 80-87,
identical in `main.py` lines 55-62). -/
def splitFlagLoop (s : String) : List String → Bool → List String
  | [], _ => []
  | f :: t, found_start_file =>
    if strLe s f then f :: splitFlagLoop s t true
    else if found_start_file then f :: splitFlagLoop s t found_start_file
    else splitFlagLoop s t found_start_file

/-- The splitter CLI's start filter: Python `if args.filename:` treats both
`None` and `""` as "no filter". -/
def splitterStartFilter (all : List String) (filenameArg : Option String) : List String :=
  match filenameArg with
  | some s => if s = "" then all else splitFlagLoop s all false
  | none => all

/-- The sweep's candidate list (`image_comparator.py` lines 71-87):
image-extension regular files, sorted, then the flag loop. -/
def comparatorRelevant (fs : FS) (folder : String) (start : Option String) : List String :=
  let startS := start.getD ""
  let all := sortStrings ((osListdir fs folder).filter
    (fun f => isImageName f && isfileF fs (pathJoin folder f)))
  compFlagLoop startS all false

/-- The splitter CLI's candidate list (`image_splitter.py` lines 73-89,
identical in `main.py` lines 48-64): `-DUP` files are excluded up front. -/
def splitterRelevant (fs : FS) (folder : String) (filenameArg : Option String) : List String :=
  let all := sortStrings ((osListdir fs folder).filter
    (fun f => isImageName f && isfileF fs (pathJoin folder f) && !containsSub f dupMark))
  splitterStartFilter all filenameArg

/-- The reference candidate definition the specification states: extension
filter, lexical sort, then keep names at-or-after `start` that do not
contain `-DUP`. -/
def refCandidates (fs : FS) (folder : String) (start : String) : List String :=
  (sortStrings ((osListdir fs folder).filter
    (fun f => isImageName f && isfileF fs (pathJoin folder f)))).filter
    (fun f => strLe start f && !containsSub f dupMark)

/-! ### The duplicate-detection sweep (`image_comparator.run_duplicate_detection`) -/

/-- The sweep's loop state.  `files` is the in-memory
`relevant_files_for_dup_check` list, `fs` the live filesystem,
`refName`/`i` the reference file and cursor.  `trace` and `renamed` are
ghost fields recording every comparison performed (reference name, cursor
name) and every successful rename (old cursor name); they influence
nothing. -/
structure SweepState where
  files : List String
  fs : FS
  refName : String
  i : Nat
  trace : List (String × String)
  renamed : List String
deriving DecidableEq

/-- Outcome of one iteration of the `while` loop. -/
inductive StepRes where
  | done : SweepState → StepRes
  | next : SweepState → StepRes
  | err : SweepState → StepRes
deriving DecidableEq

/-- The re-synchronization scan (`image_comparator.py` lines 106-114):
from index `j0`, the first candidate that is not `-DUP`-marked and still
exists; returns its index and name. -/
def findFrom (fs : FS) (folder : String) : List String → Nat → Option (Nat × String)
  | [], _ => none
  | f :: t, j =>
    if !containsSub f dupMark && existsF fs (pathJoin folder f) then some (j, f)
    else findFrom fs folder t (j + 1)

/-- One iteration of the sweep's `while` loop (`image_comparator.py`
lines 99-155).  `err` is the uncaught `NameError` raised by the warning
branch at line 154, whose f-string reads the undefined `current_file_name`. -/
def sweepStep (env : Env) (folder : String) (frac thr : ℚ) (s : SweepState) : StepRes :=
  if h : s.i < s.files.length then
    let next_file_name := s.files.get ⟨s.i, h⟩
    let next_file_path := pathJoin folder next_file_name
    let ref_path := pathJoin folder s.refName
    if containsSub s.refName dupMark || !existsF s.fs ref_path then
      match findFrom s.fs folder (s.files.drop s.i) s.i with
      | some (j, f) => .next { s with refName := f, i := j + 1 }
      | none => .done s
    else if existsF s.fs ref_path && existsF s.fs next_file_path then
      let is_materially_different :=
        compare_images_visually env s.fs ref_path next_file_path frac thr
      let s₁ := { s with trace := s.trace ++ [(s.refName, next_file_name)] }
      if is_materially_different = false then
        let new_next_file_name := dupName next_file_name
        let new_next_file_path := pathJoin folder new_next_file_name
        if env.renameOk next_file_path new_next_file_path then
          .next { s₁ with
                  files := s.files.set s.i new_next_file_name,
                  fs := renameFS s.fs next_file_path new_next_file_path,
                  renamed := s.renamed ++ [next_file_name],
                  i := s.i + 1 }
        else .next { s₁ with i := s.i + 1 }
      else .next { s₁ with refName := next_file_name, i := s.i + 1 }
    else .err s
  else .done s

/-- The `while` loop, driven by explicit fuel (the loop strictly increases
the cursor, so `files.length + 1` fuel always suffices; see
`sweepGo_fuel_irrelevant`).  An `Except.error` is the uncaught `NameError`. -/
def sweepGo (env : Env) (folder : String) (frac thr : ℚ) :
    Nat → SweepState → Except SweepState SweepState
  | 0, s => .ok s
  | fuel + 1, s =>
    match sweepStep env folder frac thr s with
    | .done s' => .ok s'
    | .err s' => .error s'
    | .next s' => sweepGo env folder frac thr fuel s'

def sweepLoop (env : Env) (folder : String) (frac thr : ℚ) (s : SweepState) :
    Except SweepState SweepState :=
  sweepGo env folder frac thr (s.files.length + 1) s

/-- `run_duplicate_detection` of `image_comparator.py` (lines 64-157),
returning the full final sweep state.  `snap` is the filesystem as the
enumeration (`os.listdir` + `os.path.isfile`) saw it; `fs` is the live
filesystem the loop runs against — they differ only when another process
changes the folder between the two reads (spec section 5). -/
def rddFull (env : Env) (snap fs : FS) (folder : String) (start : Option String)
    (frac thr : ℚ) : Except SweepState SweepState :=
  let relevant := comparatorRelevant snap folder start
  if relevant.length < 2 then .ok ⟨relevant, fs, "", 0, [], []⟩
  else
    sweepLoop env folder frac thr ⟨relevant, fs, relevant.headD "", 1, [], []⟩

/-- `run_duplicate_detection` as its callers see it: only the filesystem
outcome (the crash state on an uncaught `NameError`). -/
def run_duplicate_detection (env : Env) (snap fs : FS) (folder : String)
    (start : Option String) (frac thr : ℚ) : Except FS FS :=
  match rddFull env snap fs folder start frac thr with
  | .ok s => .ok s.fs
  | .error s => .error s.fs

/-- Final state of a sweep, whether it returned or crashed. -/
def finalState (r : Except SweepState SweepState) : SweepState :=
  match r with
  | .ok s => s
  | .error s => s

/-- Whether a sweep crashed with the uncaught `NameError`. -/
def isCrash (r : Except SweepState SweepState) : Bool :=
  match r with
  | .ok _ => false
  | .error _ => true

/-! ### The two CLI entry points that create the split folders -/

/-- `main` of `image_splitter.py` (lines 47-100), after argument parsing:
validate the directory, create the two split subfolders, compute the
candidate list, and run the per-image split over it. -/
def splitter_main (env : Env) (fs : FS) (pathArg : String)
    (filenameArg : Option String) (split_width : Nat) : FS :=
  if isdirF fs pathArg = false then fs
  else
    let left_splits_folder := pathJoin pathArg "_left_splits"
    let right_splits_folder := pathJoin pathArg "_right_splits"
    let fs1 := mkdirF (mkdirF fs left_splits_folder) right_splits_folder
    let relevant := splitterRelevant fs1 pathArg filenameArg
    if relevant.isEmpty then fs1
    else relevant.foldl
      (fun s f => split_image_horizontally env s (pathJoin pathArg f)
        left_splits_folder right_splits_folder split_width) fs1

/-- `main` of `main.py` (lines 11-96), after argument parsing: validate,
create the split subfolders, split the candidate files, then sweep each
subfolder with an empty start filename.  An uncaught `NameError` from a
sweep propagates (`Except.error` carries the filesystem at the crash). -/
def orchestrator_main (env : Env) (fs : FS) (pathArg : String)
    (startFilenameArg : Option String) (split_width : Nat) (frac thr : ℚ) :
    Except FS FS :=
  if isdirF fs pathArg = false then .ok fs
  else
    let left_splits_folder := pathJoin pathArg "_left_splits"
    let right_splits_folder := pathJoin pathArg "_right_splits"
    let fs1 := mkdirF (mkdirF fs left_splits_folder) right_splits_folder
    let relevant := splitterRelevant fs1 pathArg startFilenameArg
    if relevant.isEmpty then .ok fs1
    else
      let fs2 := relevant.foldl
        (fun s f => split_image_horizontally env s (pathJoin pathArg f)
          left_splits_folder right_splits_folder split_width) fs1
      match run_duplicate_detection env fs2 fs2 left_splits_folder (some "") frac thr with
      | .error s => .error s
      | .ok fs3 =>
        run_duplicate_detection env fs3 fs3 right_splits_folder (some "") frac thr

/-! ### Spec-side definitions used by claim statements -/

/-- The SSIM call the specification describes for the Duplicate Detector:
centered crops with `crop dim = ⌊dim * fraction⌋`, offsets
`⌊(dim - crop) / 2⌋`, and intensity range 0-255. -/
def specSsimCall (env : Env) (i1 i2 : GrayImage) (frac : ℚ) : Option ℚ :=
  let cw := ratFloorMul i1.w frac
  let ch := ratFloorMul i1.h frac
  let l := Int.fdiv ((i1.w : ℤ) - cw) 2
  let t := Int.fdiv ((i1.h : ℤ) - ch) 2
  env.ssim (npCrop i1.rows t (t + ch) l (l + cw)) (npCrop i2.rows t (t + ch) l (l + cw)) 255

/-! ### Concrete inputs for witnesses and counterexamples -/

/-- A concrete external world for witnesses: everything succeeds and the
SSIM backend scores equal crops 1 and unequal crops 0. -/
def wEnv : Env :=
  { decodeOk := fun _ => true
    ssim := fun c1 c2 _ => some (if c1 = c2 then 1 else 0)
    saveOk := fun _ => true
    removeOk := fun _ => true
    renameOk := fun _ _ => true }

/-- A 1-by-1 image of intensity `v`. -/
def px (v : Nat) : GrayImage := ⟨1, 1, [[v]]⟩

/-- The folder as `run_duplicate_detection` enumerated it: `a.jpg`, `b.jpg`,
`c.jpg`. -/
def c1Snap : FS := ⟨[], [⟨"d/a.jpg", px 0⟩, ⟨"d/b.jpg", px 0⟩, ⟨"d/c.jpg", px 7⟩]⟩

/-- The same folder after another process deleted `b.jpg` between the
enumeration and the comparison (spec section 5 allows exactly this). -/
def c1Live : FS := ⟨[], [⟨"d/a.jpg", px 0⟩, ⟨"d/c.jpg", px 7⟩]⟩

/-- An SSIM backend that raises unless it is given the full 8-bit
`data_range` of 255, and scores 1 otherwise; decoding always succeeds. -/
def c4Env : Env :=
  { decodeOk := fun _ => true
    ssim := fun _ _ dr => if dr = 255 then some 1 else none
    saveOk := fun _ => true
    removeOk := fun _ => true
    renameOk := fun _ _ => true }

/-- A constant 3-by-3 image: its crop has `max - min = 0`, far from 255. -/
def c4Img : GrayImage := ⟨3, 3, [[5, 5, 5], [5, 5, 5], [5, 5, 5]]⟩

def c4FS : FS := ⟨[], [⟨"p.jpg", c4Img⟩, ⟨"q.jpg", c4Img⟩]⟩

/-! ### Integer-division bridging lemmas -/

theorem ediv_neg_of_neg_of_pos {a b : ℤ} (ha : a < 0) (hb : 0 < b) : a / b < 0 :=
  Int.ediv_neg' ha hb

theorem tdiv_nonpos_iff_fdiv_nonpos {a b : ℤ} (hb : 0 < b) :
    Int.tdiv a b ≤ 0 ↔ Int.fdiv a b ≤ 0 := by
  rcases le_or_lt 0 a with ha | ha
  · rw [← Int.fdiv_eq_div ha hb.le]
  · constructor
    · intro _
      rw [Int.fdiv_eq_ediv a hb.le]
      exact (ediv_neg_of_neg_of_pos ha hb).le
    · intro _
      have h1 : Int.tdiv (-a) b = Int.fdiv (-a) b := (Int.fdiv_eq_div (by omega) hb.le).symm
      have h2 : 0 ≤ Int.fdiv (-a) b := by
        rw [Int.fdiv_eq_ediv _ hb.le]
        exact Int.ediv_nonneg (by omega) hb.le
      have h3 : Int.tdiv (-a) b = -Int.tdiv a b := Int.neg_tdiv a b
      omega

theorem tdiv_eq_fdiv_of_fdiv_pos {a b : ℤ} (hb : 0 < b) (h : 0 < Int.fdiv a b) :
    Int.tdiv a b = Int.fdiv a b := by
  rcases le_or_lt 0 a with ha | ha
  · exact (Int.fdiv_eq_div ha hb.le).symm
  · exfalso
    rw [Int.fdiv_eq_ediv a hb.le] at h
    exact absurd h (not_lt.mpr (ediv_neg_of_neg_of_pos ha hb).le)

theorem ratDenPos (q : ℚ) : (0 : ℤ) < (q.den : ℤ) := by
  exact_mod_cast q.pos

theorem pyIntMul_nonpos_iff (w : Nat) (q : ℚ) :
    pyIntMul w q ≤ 0 ↔ ratFloorMul w q ≤ 0 :=
  tdiv_nonpos_iff_fdiv_nonpos (ratDenPos q)

theorem pyIntMul_eq_ratFloorMul_of_pos {w : Nat} {q : ℚ} (h : 0 < ratFloorMul w q) :
    pyIntMul w q = ratFloorMul w q :=
  tdiv_eq_fdiv_of_fdiv_pos (ratDenPos q) h

/-! ### Claim C9 -/

/-- Claim C9: the Legacy Prototype's pairwise comparison result is
independent of its `material_difference_threshold` parameter — for every
environment, filesystem, pair of paths, fraction, and any two threshold
values, the result is identical (a fixed internal 0.95 constant is used
instead). -/
theorem claim_C9_threshold_dead (env : Env) (fs : FS) (p1 p2 : String)
    (frac t1 t2 : ℚ) :
    scratch_compare_images_visually env fs p1 p2 frac t1 =
      scratch_compare_images_visually env fs p1 p2 frac t2 := rfl

/-! ### Claim C1 -/

/-- Claim C1 (code_bug): when the cursor file is missing at comparison
time, the sweep does NOT log a warning and advance — the warning line reads
the undefined variable `current_file_name`, raising an uncaught `NameError`
that terminates the whole run.  Here `b.jpg` was enumerated but deleted
before its comparison, and the sweep crashes instead of proceeding to
`c.jpg`. -/
theorem claim_C1_missing_file_crashes :
    isCrash (rddFull wEnv c1Snap c1Live "d" none 1 1) = true := by decide

/-! ### Claim C2 -/

/-- The crop both comparison functions compute, with `geo` supplying the
PIL size used for the geometry and `rows` the array being sliced. -/
def codeCrop (geo : GrayImage) (rows : List (List Nat)) (frac : ℚ) : List (List Nat) :=
  let cw := pyIntMul geo.w frac
  let ch := pyIntMul geo.h frac
  let l := Int.fdiv ((geo.w : ℤ) - cw) 2
  let t := Int.fdiv ((geo.h : ℤ) - ch) 2
  npCrop rows t (t + ch) l (l + cw)

theorem compare_unfold (env : Env) (fs : FS) (p1 p2 : String) (frac thr : ℚ)
    {i1 i2 : GrayImage} (h1 : decodeImg env fs p1 = some i1)
    (h2 : decodeImg env fs p2 = some i2) :
    compare_images_visually env fs p1 p2 frac thr =
      (if npShape i1 ≠ npShape i2 then true
       else if pyIntMul i1.w frac ≤ 0 ∨ pyIntMul i1.h frac ≤ 0 then true
       else
         match env.ssim (codeCrop i1 i1.rows frac) (codeCrop i1 i2.rows frac) 255 with
         | some s => decide (s < thr)
         | none => true) := by
  unfold compare_images_visually
  rw [h1, h2]
  rfl

theorem scratch_unfold (env : Env) (fs : FS) (p1 p2 : String) (frac t : ℚ)
    {i1 i2 : GrayImage} (h1 : decodeImg env fs p1 = some i1)
    (h2 : decodeImg env fs p2 = some i2) :
    scratch_compare_images_visually env fs p1 p2 frac t =
      (if npShape i1 ≠ npShape i2 then true
       else
         match npMax (codeCrop i1 i1.rows frac), npMin (codeCrop i1 i1.rows frac) with
         | some mx, some mn =>
           (match env.ssim (codeCrop i1 i1.rows frac) (codeCrop i1 i2.rows frac)
               ((mx - mn : ℕ) : ℚ) with
            | some s => decide (s < 19/20)
            | none => true)
         | _, _ => true) := by
  unfold scratch_compare_images_visually
  rw [h1, h2]
  rfl

theorem compare_none_left (env : Env) (fs : FS) (p1 p2 : String) (frac thr : ℚ)
    (h : decodeImg env fs p1 = none) :
    compare_images_visually env fs p1 p2 frac thr = true := by
  unfold compare_images_visually
  rw [h]

theorem compare_none_right (env : Env) (fs : FS) (p1 p2 : String) (frac thr : ℚ)
    (h : decodeImg env fs p2 = none) :
    compare_images_visually env fs p1 p2 frac thr = true := by
  unfold compare_images_visually
  rw [h]
  cases decodeImg env fs p1 <;> rfl

/-- Claim C2: `compare_images_visually` reports materially different when
either decode fails, when the two grayscale shapes differ, or when a
computed crop dimension is at most 0; otherwise it reports materially
different exactly when the SSIM index of the centered crops (floor-based
geometry, range 0-255) is missing (an exception) or strictly below the
threshold. -/
theorem claim_C2_compare_characterization (env : Env) (fs : FS) (p1 p2 : String)
    (frac thr : ℚ) :
    ((decodeImg env fs p1 = none ∨ decodeImg env fs p2 = none) →
      compare_images_visually env fs p1 p2 frac thr = true) ∧
    (∀ i1 i2, decodeImg env fs p1 = some i1 → decodeImg env fs p2 = some i2 →
      (compare_images_visually env fs p1 p2 frac thr = true ↔
        (npShape i1 ≠ npShape i2 ∨ ratFloorMul i1.w frac ≤ 0 ∨ ratFloorMul i1.h frac ≤ 0 ∨
          specSsimCall env i1 i2 frac = none ∨
          ∃ s, specSsimCall env i1 i2 frac = some s ∧ s < thr))) := by
  constructor
  · intro h
    rcases h with h | h
    · exact compare_none_left env fs p1 p2 frac thr h
    · exact compare_none_right env fs p1 p2 frac thr h
  · intro i1 i2 h1 h2
    rw [compare_unfold env fs p1 p2 frac thr h1 h2]
    by_cases hs : npShape i1 = npShape i2
    · rw [if_neg (not_not_intro hs)]
      by_cases hguard : pyIntMul i1.w frac ≤ 0 ∨ pyIntMul i1.h frac ≤ 0
      · rw [if_pos hguard]
        simp only [true_iff]
        rcases hguard with h | h
        · exact Or.inr (Or.inl ((pyIntMul_nonpos_iff _ _).mp h))
        · exact Or.inr (Or.inr (Or.inl ((pyIntMul_nonpos_iff _ _).mp h)))
      · rw [if_neg hguard]
        push_neg at hguard
        obtain ⟨hcw, hch⟩ := hguard
        have hcwf : 0 < ratFloorMul i1.w frac := by
          have h := pyIntMul_nonpos_iff i1.w frac
          omega
        have hchf : 0 < ratFloorMul i1.h frac := by
          have h := pyIntMul_nonpos_iff i1.h frac
          omega
        have hspec : specSsimCall env i1 i2 frac =
            env.ssim (codeCrop i1 i1.rows frac) (codeCrop i1 i2.rows frac) 255 := by
          unfold specSsimCall codeCrop
          rw [pyIntMul_eq_ratFloorMul_of_pos hcwf, pyIntMul_eq_ratFloorMul_of_pos hchf]
        rw [hspec]
        cases hE : env.ssim (codeCrop i1 i1.rows frac) (codeCrop i1 i2.rows frac) 255 with
        | none =>
          exact iff_of_true rfl (Or.inr (Or.inr (Or.inr (Or.inl rfl))))
        | some s =>
          rw [decide_eq_true_eq]
          constructor
          · intro h
            exact Or.inr (Or.inr (Or.inr (Or.inr ⟨s, rfl, h⟩)))
          · intro h
            rcases h with h | h | h | h | ⟨s', hs', hlt⟩
            · exact absurd hs h
            · omega
            · omega
            · exact absurd h (by simp)
            · cases hs'
              exact hlt
    · rw [if_pos hs]
      simp only [true_iff]
      exact Or.inl hs

/-- Witness for claim C2 at a concrete input: a missing file makes the
comparison report materially different. -/
theorem claim_C2_witness :
    compare_images_visually wEnv ⟨[], []⟩ "x.jpg" "y.jpg" 1 1 = true :=
  (claim_C2_compare_characterization wEnv ⟨[], []⟩ "x.jpg" "y.jpg" 1 1).1 (Or.inl rfl)


/-! ### Claim C4 -/

theorem fdiv_two_eq (x : ℤ) : Int.fdiv x 2 = x / 2 := Int.fdiv_eq_ediv x (by norm_num)

theorem scratch_none_left (env : Env) (fs : FS) (p1 p2 : String) (frac t : ℚ)
    (h : decodeImg env fs p1 = none) :
    scratch_compare_images_visually env fs p1 p2 frac t = true := by
  unfold scratch_compare_images_visually
  rw [h]

theorem scratch_none_right (env : Env) (fs : FS) (p1 p2 : String) (frac t : ℚ)
    (h : decodeImg env fs p2 = none) :
    scratch_compare_images_visually env fs p1 p2 frac t = true := by
  unfold scratch_compare_images_visually
  rw [h]
  cases decodeImg env fs p1 <;> rfl

theorem pySlice_center_eq_nil {α : Type} (l : List α) (n d : ℤ)
    (hn : n = l.length) (hd : d ≤ 0) :
    pySlice l (Int.fdiv (n - d) 2) (Int.fdiv (n - d) 2 + d) = [] := by
  rw [fdiv_two_eq]
  simp only [pySlice, ← hn]
  apply List.drop_eq_nil_of_le
  rw [List.length_take]
  split_ifs <;> omega

theorem pySlice_center_ne_nil {α : Type} (l : List α) (n d : ℤ)
    (hn : n = l.length) (hd : 0 < d) (hpos : 0 < n) :
    pySlice l (Int.fdiv (n - d) 2) (Int.fdiv (n - d) 2 + d) ≠ [] := by
  rw [fdiv_two_eq]
  simp only [pySlice, ← hn]
  rw [← List.length_pos, List.length_drop, List.length_take]
  split_ifs <;> omega

theorem mem_of_mem_pySlice {α : Type} {x : α} {l : List α} {a b : ℤ}
    (h : x ∈ pySlice l a b) : x ∈ l := by
  simp only [pySlice] at h
  exact List.mem_of_mem_take (List.mem_of_mem_drop h)

theorem pyIntMul_pos_dim {w : Nat} {q : ℚ} (h : 0 < pyIntMul w q) : 0 < w := by
  rcases Nat.eq_zero_or_pos w with hw | hw
  · subst hw
    simp [pyIntMul, Int.zero_tdiv] at h
  · exact hw

/-- Claim C4 is false as stated: on the same inputs the Legacy Prototype's
comparison and the primary Duplicate Detector's comparison can disagree,
because the Legacy version passes `crop1.max() - crop1.min()` as the SSIM
`data_range` instead of 255.  With an SSIM backend that accepts only the
full 8-bit range and two identical constant images, the primary reports
"not materially different" while the Legacy reports "materially
different". -/
theorem claim_C4_counterexample :
    scratch_compare_images_visually c4Env c4FS "p.jpg" "q.jpg" 1 1 = true ∧
    compare_images_visually c4Env c4FS "p.jpg" "q.jpg" 1 1 = false := by decide

/-- Claim C4 amended: beyond the three filter/extension deltas, the Legacy
comparison also differs in the SSIM `data_range` (crop max minus min
instead of 255), in using a fixed 0.95 threshold instead of its threshold
parameter, and in lacking the degenerate-crop guard (compensated by the
exception numpy raises on an empty crop).  Whenever the SSIM backend is
insensitive to `data_range`, decoding yields well-formed images, and the
primary detector is called with threshold 0.95, the two agree on every
input pair. -/
theorem claim_C4_amended (env : Env) (fs : FS) (p1 p2 : String) (frac t : ℚ)
    (hwf : ∀ p i, decodeImg env fs p = some i → ImgWF i)
    (hrange : ∀ c1 c2 d1 d2, env.ssim c1 c2 d1 = env.ssim c1 c2 d2) :
    scratch_compare_images_visually env fs p1 p2 frac t =
      compare_images_visually env fs p1 p2 frac (19/20) := by
  cases hd1 : decodeImg env fs p1 with
  | none =>
    rw [scratch_none_left env fs p1 p2 frac t hd1,
      compare_none_left env fs p1 p2 frac (19/20) hd1]
  | some i1 =>
    cases hd2 : decodeImg env fs p2 with
    | none =>
      rw [scratch_none_right env fs p1 p2 frac t hd2,
        compare_none_right env fs p1 p2 frac (19/20) hd2]
    | some i2 =>
      rw [scratch_unfold env fs p1 p2 frac t hd1 hd2,
        compare_unfold env fs p1 p2 frac (19/20) hd1 hd2]
      by_cases hs : npShape i1 = npShape i2
      · rw [if_neg (not_not_intro hs), if_neg (not_not_intro hs)]
        obtain ⟨hlen, hrow⟩ := hwf p1 i1 hd1
        by_cases hguard : pyIntMul i1.w frac ≤ 0 ∨ pyIntMul i1.h frac ≤ 0
        · rw [if_pos hguard]
          have hflat : (codeCrop i1 i1.rows frac).flatten = [] := by
            rcases hguard with hcw | hch
            · rw [List.flatten_eq_nil_iff]
              intro r hr
              simp only [codeCrop, npCrop, List.mem_map] at hr
              obtain ⟨row, hrowmem, hrfl⟩ := hr
              rw [← hrfl]
              exact pySlice_center_eq_nil row (i1.w : ℤ) (pyIntMul i1.w frac)
                (by rw [hrow row (mem_of_mem_pySlice hrowmem)]) hcw
            · rw [List.flatten_eq_nil_iff]
              intro r hr
              simp only [codeCrop, npCrop] at hr
              rw [pySlice_center_eq_nil i1.rows (i1.h : ℤ) (pyIntMul i1.h frac)
                (by rw [hlen]) hch] at hr
              simp at hr
          unfold npMax
          rw [hflat]
          rfl
        · rw [if_neg hguard]
          push_neg at hguard
          obtain ⟨hcw, hch⟩ := hguard
          have hwpos : 0 < i1.w := pyIntMul_pos_dim hcw
          have hhpos : 0 < i1.h := pyIntMul_pos_dim hch
          have hrows_ne : pySlice i1.rows (Int.fdiv ((i1.h : ℤ) - pyIntMul i1.h frac) 2)
              (Int.fdiv ((i1.h : ℤ) - pyIntMul i1.h frac) 2 + pyIntMul i1.h frac) ≠ [] :=
            pySlice_center_ne_nil i1.rows (i1.h : ℤ) (pyIntMul i1.h frac)
              (by rw [hlen]) hch (by exact_mod_cast hhpos)
          have hflat_ne : (codeCrop i1 i1.rows frac).flatten ≠ [] := by
            intro hcontra
            rw [List.flatten_eq_nil_iff] at hcontra
            obtain ⟨row, hrowmem⟩ := List.exists_mem_of_ne_nil _ hrows_ne
            have hcol_ne : pySlice row (Int.fdiv ((i1.w : ℤ) - pyIntMul i1.w frac) 2)
                (Int.fdiv ((i1.w : ℤ) - pyIntMul i1.w frac) 2 + pyIntMul i1.w frac) ≠ [] :=
              pySlice_center_ne_nil row (i1.w : ℤ) (pyIntMul i1.w frac)
                (by rw [hrow row (mem_of_mem_pySlice hrowmem)]) hcw (by exact_mod_cast hwpos)
            apply hcol_ne
            apply hcontra
            simp only [codeCrop, npCrop]
            exact List.mem_map_of_mem _ hrowmem
          cases hmx : npMax (codeCrop i1 i1.rows frac) with
          | none =>
            exact absurd ((List.max?_eq_none_iff).mp hmx) hflat_ne
          | some mx =>
            cases hmn : npMin (codeCrop i1 i1.rows frac) with
            | none =>
              exact absurd ((List.min?_eq_none_iff).mp hmn) hflat_ne
            | some mn =>
              show (match env.ssim (codeCrop i1 i1.rows frac) (codeCrop i1 i2.rows frac)
                  ((mx - mn : ℕ) : ℚ) with
                | some s => decide (s < 19/20)
                | none => true) =
                (match env.ssim (codeCrop i1 i1.rows frac) (codeCrop i1 i2.rows frac) 255 with
                | some s => decide (s < 19/20)
                | none => true)
              rw [hrange (codeCrop i1 i1.rows frac) (codeCrop i1 i2.rows frac)
                ((mx - mn : ℕ) : ℚ) 255]
      · rw [if_pos hs, if_pos hs]

/-- Witness for the amended claim C4 at a concrete input (an empty
filesystem: every decode fails, both functions fail open). -/
theorem claim_C4_amended_witness :
    scratch_compare_images_visually wEnv ⟨[], []⟩ "x.jpg" "y.jpg" 1 1 =
      compare_images_visually wEnv ⟨[], []⟩ "x.jpg" "y.jpg" 1 (19/20) :=
  claim_C4_amended wEnv ⟨[], []⟩ "x.jpg" "y.jpg" 1 1
    (by intro p i h; simp [decodeImg, findFile] at h)
    (fun c1 c2 d1 d2 => rfl)

/-! ### Claim C6 -/

/-- Claim C6: for an image that decodes, if its width is at most the split
width the filesystem is unchanged (no output, source untouched); if it is
wider and both saves and the delete succeed, exactly the two halves
`<base>-L.jpg` (width `W`) and `<base>-R.jpg` (width `w - W`), both of full
height, are added, their widths sum to the source width, the source no
longer exists, and nothing else changes. -/
theorem claim_C6_split_dichotomy (env : Env) (fs : FS)
    (image_path lf rf : String) (W : Nat) (e : FileEntry)
    (hfind : findFile fs image_path = some e)
    (hdec : env.decodeOk image_path = true) :
    (e.img.w ≤ W → split_image_horizontally env fs image_path lf rf W = fs) ∧
    (W < e.img.w →
      ∀ lp rp, lp = pathJoin lf ((splitext (pyBasename image_path)).1 ++ "-L.jpg") →
      rp = pathJoin rf ((splitext (pyBasename image_path)).1 ++ "-R.jpg") →
      env.saveOk lp = true → env.saveOk rp = true → env.removeOk image_path = true →
      lp ≠ image_path → rp ≠ image_path → lp ≠ rp →
      ((⟨lp, pilCrop e.img 0 0 W e.img.h⟩ : FileEntry) ∈
          (split_image_horizontally env fs image_path lf rf W).files ∧
        (⟨rp, pilCrop e.img W 0 e.img.w e.img.h⟩ : FileEntry) ∈
          (split_image_horizontally env fs image_path lf rf W).files ∧
        (pilCrop e.img 0 0 W e.img.h).w = W ∧
        (pilCrop e.img 0 0 W e.img.h).h = e.img.h ∧
        (pilCrop e.img W 0 e.img.w e.img.h).w = e.img.w - W ∧
        (pilCrop e.img W 0 e.img.w e.img.h).h = e.img.h ∧
        W + (e.img.w - W) = e.img.w ∧
        (∀ q ∈ (split_image_horizontally env fs image_path lf rf W).files,
          q.path ≠ image_path) ∧
        (∀ q : FileEntry, q.path ≠ lp → q.path ≠ rp → q.path ≠ image_path →
          (q ∈ (split_image_horizontally env fs image_path lf rf W).files ↔
            q ∈ fs.files)) ∧
        (split_image_horizontally env fs image_path lf rf W).dirs = fs.dirs)) := by
  constructor
  · intro hle
    simp only [split_image_horizontally, hfind, hdec, Bool.true_eq_false, if_false]
    rw [if_pos hle]
  · intro hlt lp rp hlp hrp hsl hsr hrm hlpne hrpne hlr
    have hsplit : split_image_horizontally env fs image_path lf rf W =
        removeFile (saveFile (saveFile fs lp (pilCrop e.img 0 0 W e.img.h))
          rp (pilCrop e.img W 0 e.img.w e.img.h)) image_path := by
      simp only [split_image_horizontally, hfind, hdec, Bool.true_eq_false, if_false]
      rw [if_neg (not_le.mpr hlt), ← hlp, hsl, ← hrp, hsr, hrm]
      simp only [Bool.true_eq_false, if_false]
    rw [hsplit]
    refine ⟨?_, ?_, by simp [pilCrop], by simp [pilCrop], by simp [pilCrop],
      by simp [pilCrop], by omega, ?_, ?_, rfl⟩
    · simp only [removeFile, saveFile, List.mem_filter, List.mem_append]
      refine ⟨Or.inl ⟨Or.inr ?_, ?_⟩, ?_⟩
      · simp
      · simp [hlr]
      · simp [hlpne]
    · simp only [removeFile, saveFile, List.mem_filter, List.mem_append]
      refine ⟨Or.inr ?_, ?_⟩
      · simp
      · simp [hrpne]
    · intro q hq
      simp only [removeFile, List.mem_filter] at hq
      simpa using hq.2
    · intro q hq1 hq2 hq3
      simp only [removeFile, saveFile, List.mem_filter, List.mem_append, List.mem_singleton]
      constructor
      · rintro ⟨(⟨(h | h), _⟩ | h), _⟩
        · exact h.1
        · exact absurd (congrArg FileEntry.path h) (by simpa using hq1)
        · exact absurd (congrArg FileEntry.path h) (by simpa using hq2)
      · intro h
        exact ⟨Or.inl ⟨Or.inl ⟨h, by simpa using hq1⟩, by simpa using hq2⟩, by simpa using hq3⟩

/-- Concrete input for the C6 witness: a 4-by-2 image split at width 3. -/
def c6Img : GrayImage := ⟨4, 2, [[1, 2, 3, 4], [5, 6, 7, 8]]⟩

def c6FS : FS := ⟨[], [⟨"d/x.jpg", c6Img⟩]⟩

/-- Witness for claim C6 at the concrete input. -/
theorem claim_C6_witness :
    (⟨"L/x-L.jpg", pilCrop c6Img 0 0 3 2⟩ : FileEntry) ∈
      (split_image_horizontally wEnv c6FS "d/x.jpg" "L" "R" 3).files ∧
    (⟨"R/x-R.jpg", pilCrop c6Img 3 0 4 2⟩ : FileEntry) ∈
      (split_image_horizontally wEnv c6FS "d/x.jpg" "L" "R" 3).files := by
  have h := (claim_C6_split_dichotomy wEnv c6FS "d/x.jpg" "L" "R" 3 ⟨"d/x.jpg", c6Img⟩
    (by decide) rfl).2 (by decide) "L/x-L.jpg" "R/x-R.jpg" (by decide) (by decide)
    rfl rfl rfl (by decide) (by decide) (by decide)
  exact ⟨h.1, h.2.1⟩

/-! ### Claim C7 -/

theorem findFrom_ge (fs : FS) (folder : String) :
    ∀ (l : List String) (j0 j : Nat) (f : String),
      findFrom fs folder l j0 = some (j, f) → j0 ≤ j := by
  intro l
  induction l with
  | nil => intro j0 j f h; simp [findFrom] at h
  | cons a t ih =>
    intro j0 j f h
    rw [findFrom] at h
    split at h
    · cases h
      exact le_refl _
    · exact (ih (j0 + 1) j f h).trans' (Nat.le_succ _)

/-- `sweepStep` with its `let` bindings substituted, for case analysis. -/
theorem sweepStep_eq (env : Env) (folder : String) (frac thr : ℚ) (s : SweepState) :
    sweepStep env folder frac thr s =
      if h : s.i < s.files.length then
        if containsSub s.refName dupMark || !existsF s.fs (pathJoin folder s.refName) then
          match findFrom s.fs folder (s.files.drop s.i) s.i with
          | some (j, f) => .next { s with refName := f, i := j + 1 }
          | none => .done s
        else if existsF s.fs (pathJoin folder s.refName) &&
            existsF s.fs (pathJoin folder (s.files.get ⟨s.i, h⟩)) then
          if compare_images_visually env s.fs (pathJoin folder s.refName)
              (pathJoin folder (s.files.get ⟨s.i, h⟩)) frac thr = false then
            if env.renameOk (pathJoin folder (s.files.get ⟨s.i, h⟩))
                (pathJoin folder (dupName (s.files.get ⟨s.i, h⟩))) then
              .next { s with
                      files := s.files.set s.i (dupName (s.files.get ⟨s.i, h⟩)),
                      fs := renameFS s.fs (pathJoin folder (s.files.get ⟨s.i, h⟩))
                        (pathJoin folder (dupName (s.files.get ⟨s.i, h⟩))),
                      trace := s.trace ++ [(s.refName, s.files.get ⟨s.i, h⟩)],
                      renamed := s.renamed ++ [s.files.get ⟨s.i, h⟩],
                      i := s.i + 1 }
            else
              .next { s with
                      trace := s.trace ++ [(s.refName, s.files.get ⟨s.i, h⟩)],
                      i := s.i + 1 }
          else
            .next { s with
                    refName := s.files.get ⟨s.i, h⟩,
                    trace := s.trace ++ [(s.refName, s.files.get ⟨s.i, h⟩)],
                    i := s.i + 1 }
        else .err s
      else .done s := rfl

theorem sweepStep_progress (env : Env) (folder : String) (frac thr : ℚ)
    (s s' : SweepState) (h : sweepStep env folder frac thr s = .next s') :
    s.i < s'.i ∧ s'.files.length = s.files.length ∧ s.i < s.files.length := by
  rw [sweepStep_eq] at h
  split at h
  · rename_i hlt
    split at h
    · split at h
      · rename_i j f heq
        cases h
        have hge := findFrom_ge _ _ _ _ _ _ heq
        exact ⟨Nat.lt_succ_of_le hge, rfl, hlt⟩
      · cases h
    · split at h
      · split at h
        · split at h
          · cases h
            exact ⟨Nat.lt_succ_self _, by simp, hlt⟩
          · cases h
            exact ⟨Nat.lt_succ_self _, rfl, hlt⟩
        · cases h
          exact ⟨Nat.lt_succ_self _, rfl, hlt⟩
      · cases h
  · cases h

theorem sweepGo_fuel_mono (env : Env) (folder : String) (frac thr : ℚ) :
    ∀ (f g : Nat) (s : SweepState), s.files.length - s.i < f → f ≤ g →
      sweepGo env folder frac thr f s = sweepGo env folder frac thr g s := by
  intro f
  induction f with
  | zero => intro g s hm _; omega
  | succ f ih =>
    intro g s hm hfg
    cases g with
    | zero => omega
    | succ g =>
      rw [sweepGo, sweepGo]
      cases hstep : sweepStep env folder frac thr s with
      | done s' => rfl
      | err s' => rfl
      | next s' =>
        obtain ⟨hi, hlen, hin⟩ := sweepStep_progress env folder frac thr s s' hstep
        exact ih g s' (by omega) (by omega)

/-- Claim C7: the sweep loop makes strict forward progress — every `next`
step strictly increases the cursor and preserves the candidate-list length
— and therefore any fuel beyond one pass over the candidate list computes
the same result as `sweepLoop`: the loop terminates after at most one
pass. -/
theorem claim_C7_termination (env : Env) (folder : String) (frac thr : ℚ)
    (s : SweepState) (k : Nat) :
    (match sweepStep env folder frac thr s with
      | .next s' => s.i < s'.i ∧ s'.files.length = s.files.length
      | _ => True) ∧
    sweepGo env folder frac thr (s.files.length + 1 + k) s =
      sweepLoop env folder frac thr s := by
  constructor
  · cases hstep : sweepStep env folder frac thr s with
    | next s' =>
      obtain ⟨hi, hlen, _⟩ := sweepStep_progress env folder frac thr s s' hstep
      exact ⟨hi, hlen⟩
    | done s' => trivial
    | err s' => trivial
  · exact (sweepGo_fuel_mono env folder frac thr (s.files.length + 1)
      (s.files.length + 1 + k) s (by omega) (by omega)).symm

/-! ### Claim C10 -/

/-- The state carried by a `StepRes`, whichever constructor it is. -/
def stepState : StepRes → SweepState
  | .done s => s
  | .next s => s
  | .err s => s

/-- The filesystem outcome of a sweep or of the orchestrator, whether it
returned normally or crashed. -/
def finalFS : Except FS FS → FS
  | .ok fs => fs
  | .error fs => fs

theorem split_dirs (env : Env) (fs : FS) (p lf rf : String) (W : Nat) :
    (split_image_horizontally env fs p lf rf W).dirs = fs.dirs := by
  unfold split_image_horizontally
  cases hf : findFile fs p with
  | none => rfl
  | some e =>
    simp only [saveFile, removeFile]
    split_ifs <;> rfl

theorem sweepStep_dirs (env : Env) (folder : String) (frac thr : ℚ) (s : SweepState) :
    (stepState (sweepStep env folder frac thr s)).fs.dirs = s.fs.dirs := by
  rw [sweepStep_eq]
  split
  · split
    · split <;> rfl
    · split
      · split
        · split <;> rfl
        · rfl
      · rfl
  · rfl

theorem sweepGo_dirs (env : Env) (folder : String) (frac thr : ℚ) :
    ∀ (fuel : Nat) (s : SweepState),
      (finalState (sweepGo env folder frac thr fuel s)).fs.dirs = s.fs.dirs := by
  intro fuel
  induction fuel with
  | zero => intro s; rfl
  | succ f ih =>
    intro s
    rw [sweepGo]
    have hd := sweepStep_dirs env folder frac thr s
    cases hstep : sweepStep env folder frac thr s with
    | done s' => rw [hstep] at hd; exact hd
    | err s' => rw [hstep] at hd; exact hd
    | next s' =>
      rw [hstep] at hd
      exact (ih s').trans hd

/-- `rddFull` with its `let` binding substituted, for case analysis. -/
theorem rddFull_eq (env : Env) (snap fs : FS) (folder : String) (start : Option String)
    (frac thr : ℚ) :
    rddFull env snap fs folder start frac thr =
      if (comparatorRelevant snap folder start).length < 2 then
        .ok ⟨comparatorRelevant snap folder start, fs, "", 0, [], []⟩
      else
        sweepLoop env folder frac thr
          ⟨comparatorRelevant snap folder start, fs,
            (comparatorRelevant snap folder start).headD "", 1, [], []⟩ := rfl

theorem rddFull_dirs (env : Env) (snap fs : FS) (folder : String) (start : Option String)
    (frac thr : ℚ) :
    (finalState (rddFull env snap fs folder start frac thr)).fs.dirs = fs.dirs := by
  rw [rddFull_eq]
  split
  · rfl
  · unfold sweepLoop
    exact sweepGo_dirs env folder frac thr _ _

theorem rdd_dirs (env : Env) (snap fs : FS) (folder : String) (start : Option String)
    (frac thr : ℚ) :
    (finalFS (run_duplicate_detection env snap fs folder start frac thr)).dirs = fs.dirs := by
  have h := rddFull_dirs env snap fs folder start frac thr
  unfold run_duplicate_detection
  cases hr : rddFull env snap fs folder start frac thr with
  | ok s => rw [hr] at h; exact h
  | error s => rw [hr] at h; exact h

theorem isdirF_mem {fs : FS} {d : String} (h : isdirF fs d = true) : d ∈ fs.dirs := by
  unfold isdirF at h
  rw [List.any_eq_true] at h
  obtain ⟨x, hx, hxd⟩ := h
  rwa [show x = d from by simpa using hxd] at hx

theorem mkdir_mem (fs : FS) (d : String) : d ∈ (mkdirF fs d).dirs := by
  unfold mkdirF
  split
  · exact isdirF_mem (by assumption)
  · exact List.mem_cons_self _ _

theorem mkdir_mono {fs : FS} {x : String} (d : String) (h : x ∈ fs.dirs) :
    x ∈ (mkdirF fs d).dirs := by
  unfold mkdirF
  split
  · exact h
  · exact List.mem_cons_of_mem _ h

theorem foldl_split_dirs (env : Env) (lf rf : String) (W : Nat) (folder : String) :
    ∀ (l : List String) (fs : FS),
      (l.foldl (fun s f => split_image_horizontally env s (pathJoin folder f) lf rf W) fs).dirs
        = fs.dirs := by
  intro l
  induction l with
  | nil => intro fs; rfl
  | cons a t ih =>
    intro fs
    rw [List.foldl_cons, ih, split_dirs]

/-- `splitter_main` with its `let` bindings substituted. -/
theorem splitter_main_eq (env : Env) (fs : FS) (pathArg : String)
    (filenameArg : Option String) (W : Nat) :
    splitter_main env fs pathArg filenameArg W =
      if isdirF fs pathArg = false then fs
      else if (splitterRelevant (mkdirF (mkdirF fs (pathJoin pathArg "_left_splits"))
          (pathJoin pathArg "_right_splits")) pathArg filenameArg).isEmpty then
        mkdirF (mkdirF fs (pathJoin pathArg "_left_splits")) (pathJoin pathArg "_right_splits")
      else
        (splitterRelevant (mkdirF (mkdirF fs (pathJoin pathArg "_left_splits"))
            (pathJoin pathArg "_right_splits")) pathArg filenameArg).foldl
          (fun s f => split_image_horizontally env s (pathJoin pathArg f)
            (pathJoin pathArg "_left_splits") (pathJoin pathArg "_right_splits") W)
          (mkdirF (mkdirF fs (pathJoin pathArg "_left_splits"))
            (pathJoin pathArg "_right_splits")) := rfl

/-- `orchestrator_main` with its `let` bindings substituted. -/
theorem orchestrator_main_eq (env : Env) (fs : FS) (pathArg : String)
    (startFilenameArg : Option String) (W : Nat) (frac thr : ℚ) :
    orchestrator_main env fs pathArg startFilenameArg W frac thr =
      if isdirF fs pathArg = false then .ok fs
      else if (splitterRelevant (mkdirF (mkdirF fs (pathJoin pathArg "_left_splits"))
          (pathJoin pathArg "_right_splits")) pathArg startFilenameArg).isEmpty then
        .ok (mkdirF (mkdirF fs (pathJoin pathArg "_left_splits"))
          (pathJoin pathArg "_right_splits"))
      else
        match run_duplicate_detection env
            ((splitterRelevant (mkdirF (mkdirF fs (pathJoin pathArg "_left_splits"))
                (pathJoin pathArg "_right_splits")) pathArg startFilenameArg).foldl
              (fun s f => split_image_horizontally env s (pathJoin pathArg f)
                (pathJoin pathArg "_left_splits") (pathJoin pathArg "_right_splits") W)
              (mkdirF (mkdirF fs (pathJoin pathArg "_left_splits"))
                (pathJoin pathArg "_right_splits")))
            ((splitterRelevant (mkdirF (mkdirF fs (pathJoin pathArg "_left_splits"))
                (pathJoin pathArg "_right_splits")) pathArg startFilenameArg).foldl
              (fun s f => split_image_horizontally env s (pathJoin pathArg f)
                (pathJoin pathArg "_left_splits") (pathJoin pathArg "_right_splits") W)
              (mkdirF (mkdirF fs (pathJoin pathArg "_left_splits"))
                (pathJoin pathArg "_right_splits")))
            (pathJoin pathArg "_left_splits") (some "") frac thr with
        | .error s => .error s
        | .ok fs3 =>
          run_duplicate_detection env fs3 fs3 (pathJoin pathArg "_right_splits")
            (some "") frac thr := rfl

/-- Claim C10: on a valid target directory, both the Splitter CLI and the
Workflow Orchestrator create `_left_splits` and `_right_splits` before
computing the candidate list, so after any run — including the
empty-candidate early return and a crashed sweep — both subfolders exist. -/
theorem claim_C10_split_folders_exist (env : Env) (fs : FS) (pathArg : String)
    (startArg : Option String) (W : Nat) (frac thr : ℚ)
    (hdir : isdirF fs pathArg = true) :
    (pathJoin pathArg "_left_splits" ∈ (splitter_main env fs pathArg startArg W).dirs ∧
      pathJoin pathArg "_right_splits" ∈ (splitter_main env fs pathArg startArg W).dirs) ∧
    (pathJoin pathArg "_left_splits" ∈
        (finalFS (orchestrator_main env fs pathArg startArg W frac thr)).dirs ∧
      pathJoin pathArg "_right_splits" ∈
        (finalFS (orchestrator_main env fs pathArg startArg W frac thr)).dirs) := by
  have hmem1 : pathJoin pathArg "_left_splits" ∈
      (mkdirF (mkdirF fs (pathJoin pathArg "_left_splits"))
        (pathJoin pathArg "_right_splits")).dirs :=
    mkdir_mono _ (mkdir_mem _ _)
  have hmem2 : pathJoin pathArg "_right_splits" ∈
      (mkdirF (mkdirF fs (pathJoin pathArg "_left_splits"))
        (pathJoin pathArg "_right_splits")).dirs :=
    mkdir_mem _ _
  constructor
  · rw [splitter_main_eq]
    rw [if_neg (by simp [hdir])]
    split
    · exact ⟨hmem1, hmem2⟩
    · rw [foldl_split_dirs]
      exact ⟨hmem1, hmem2⟩
  · rw [orchestrator_main_eq]
    rw [if_neg (by simp [hdir])]
    split
    · exact ⟨hmem1, hmem2⟩
    · set fs1 := mkdirF (mkdirF fs (pathJoin pathArg "_left_splits"))
        (pathJoin pathArg "_right_splits") with hfs1
      set fs2 := (splitterRelevant fs1 pathArg startArg).foldl
        (fun s f => split_image_horizontally env s (pathJoin pathArg f)
          (pathJoin pathArg "_left_splits") (pathJoin pathArg "_right_splits") W) fs1 with hfs2
      have hfs2d : fs2.dirs = fs1.dirs := by
        rw [hfs2]
        exact foldl_split_dirs env _ _ W pathArg _ fs1
      have h1 := rdd_dirs env fs2 fs2 (pathJoin pathArg "_left_splits") (some "") frac thr
      cases hr1 : run_duplicate_detection env fs2 fs2 (pathJoin pathArg "_left_splits")
          (some "") frac thr with
      | error s =>
        rw [hr1] at h1
        rw [show finalFS (Except.error s) = s from rfl] at h1
        show pathJoin pathArg "_left_splits" ∈ (finalFS (Except.error s)).dirs ∧
          pathJoin pathArg "_right_splits" ∈ (finalFS (Except.error s)).dirs
        rw [show finalFS (Except.error s) = s from rfl, h1, hfs2d]
        exact ⟨hmem1, hmem2⟩
      | ok fs3 =>
        rw [hr1] at h1
        rw [show finalFS (Except.ok fs3) = fs3 from rfl] at h1
        have h2 := rdd_dirs env fs3 fs3 (pathJoin pathArg "_right_splits") (some "") frac thr
        show pathJoin pathArg "_left_splits" ∈
            (finalFS (run_duplicate_detection env fs3 fs3 (pathJoin pathArg "_right_splits")
              (some "") frac thr)).dirs ∧
          pathJoin pathArg "_right_splits" ∈
            (finalFS (run_duplicate_detection env fs3 fs3 (pathJoin pathArg "_right_splits")
              (some "") frac thr)).dirs
        rw [h2, h1, hfs2d]
        exact ⟨hmem1, hmem2⟩

/-- Witness for claim C10 on a concrete one-directory filesystem. -/
theorem claim_C10_witness :
    ("d/_left_splits" ∈ (splitter_main wEnv ⟨["d"], []⟩ "d" none 1920).dirs ∧
      "d/_right_splits" ∈ (splitter_main wEnv ⟨["d"], []⟩ "d" none 1920).dirs) ∧
    ("d/_left_splits" ∈ (finalFS (orchestrator_main wEnv ⟨["d"], []⟩ "d" none 1920 1 1)).dirs ∧
      "d/_right_splits" ∈ (finalFS (orchestrator_main wEnv ⟨["d"], []⟩ "d" none 1920 1 1)).dirs) :=
  claim_C10_split_folders_exist wEnv ⟨["d"], []⟩ "d" none 1920 1 1 rfl

/-! ### Claim C5 -/

theorem lexLe_total : ∀ a b : List Char, lexLe a b = true ∨ lexLe b a = true := by
  intro a
  induction a with
  | nil => intro b; left; rfl
  | cons c cs ih =>
    intro b
    cases b with
    | nil => right; rfl
    | cons d ds =>
      rcases Nat.lt_trichotomy c.toNat d.toNat with h | h | h
      · left; simp [lexLe, h]
      · have h1 : ¬ c.toNat < d.toNat := by omega
        have h2 : ¬ d.toNat < c.toNat := by omega
        simpa [lexLe, h1, h2] using ih ds
      · right; simp [lexLe, h]

theorem lexLe_trans : ∀ a b c : List Char,
    lexLe a b = true → lexLe b c = true → lexLe a c = true := by
  intro a
  induction a with
  | nil => intro b c _ _; rfl
  | cons x xs ih =>
    intro b c hab hbc
    cases b with
    | nil => simp [lexLe] at hab
    | cons y ys =>
      cases c with
      | nil => simp [lexLe] at hbc
      | cons z zs =>
        rw [lexLe] at hab hbc ⊢
        rcases Nat.lt_trichotomy x.toNat y.toNat with h1 | h1 | h1 <;>
          rcases Nat.lt_trichotomy y.toNat z.toNat with h2 | h2 | h2 <;>
          simp only [h1, h2, if_pos, if_neg, Nat.lt_irrefl] at hab hbc ⊢ <;>
          first
            | rfl
            | omega
            | (split_ifs with hx hz
               · rfl
               · omega
               · rfl)
            | (split_ifs with hx hz
               · rfl
               · omega
               · exact ih ys zs hab hbc)
            | (split_ifs at hab hbc ⊢ <;> first | rfl | omega | exact ih ys zs hab hbc)

theorem lexLe_antisymm : ∀ a b : List Char,
    lexLe a b = true → lexLe b a = true → a = b := by
  intro a
  induction a with
  | nil =>
    intro b _ hba
    cases b with
    | nil => rfl
    | cons d ds => simp [lexLe] at hba
  | cons c cs ih =>
    intro b hab hba
    cases b with
    | nil => simp [lexLe] at hab
    | cons d ds =>
      rw [lexLe] at hab hba
      rcases Nat.lt_trichotomy c.toNat d.toNat with h | h | h
      · have h2 : ¬ d.toNat < c.toNat := by omega
        simp only [if_neg (by omega : ¬ d.toNat < c.toNat), if_pos h] at hba
        simp at hba
      · have h1 : ¬ c.toNat < d.toNat := by omega
        have h2 : ¬ d.toNat < c.toNat := by omega
        simp only [if_neg h1, if_neg h2] at hab hba
        have hcd : c = d := Char.ext (UInt32.toNat.inj h)
        rw [hcd, ih ds hab hba]
      · have h1 : ¬ c.toNat < d.toNat := by omega
        simp only [if_neg h1, if_pos h] at hab
        simp at hab

instance : IsTotal String strLeR :=
  ⟨fun a b => by
    unfold strLeR strLe
    exact lexLe_total a.data b.data⟩

instance : IsTrans String strLeR :=
  ⟨fun a b c hab hbc => by
    unfold strLeR strLe at hab hbc ⊢
    exact lexLe_trans a.data b.data c.data hab hbc⟩

instance : IsAntisymm String strLeR :=
  ⟨fun a b hab hba => by
    unfold strLeR strLe at hab hba
    cases a
    cases b
    exact congrArg String.mk (lexLe_antisymm _ _ hab hba)⟩

theorem sorted_sortStrings (l : List String) : List.Sorted strLeR (sortStrings l) :=
  List.sorted_insertionSort strLeR l

theorem perm_sortStrings (l : List String) : (sortStrings l).Perm l :=
  List.perm_insertionSort strLeR l

theorem compFlagLoop_true_eq (start : String) :
    ∀ l : List String,
      compFlagLoop start l true = l.filter (fun f => !containsSub f dupMark) := by
  intro l
  induction l with
  | nil => rfl
  | cons a t ih =>
    rw [compFlagLoop]
    simp only [ite_self, Bool.true_and]
    cases hc : containsSub a dupMark with
    | false => simp [List.filter_cons, hc, ih]
    | true => simp [List.filter_cons, hc, ih]

theorem compFlagLoop_false_eq (start : String) :
    ∀ l : List String, List.Sorted strLeR l →
      compFlagLoop start l false =
        l.filter (fun f => strLe start f && !containsSub f dupMark) := by
  intro l
  induction l with
  | nil => intro _; rfl
  | cons a t ih =>
    intro hs
    rcases List.sorted_cons.mp hs with ⟨hall, hst⟩
    rw [compFlagLoop]
    cases hsa : strLe start a with
    | false =>
      simp [hsa, List.filter_cons, ih hst]
    | true =>
      have hrest : t.filter (fun f => strLe start f && !containsSub f dupMark) =
          t.filter (fun f => !containsSub f dupMark) := by
        apply List.filter_congr
        intro x hx
        have : strLe start x = true :=
          lexLe_trans start.data a.data x.data hsa (hall x hx)
        simp [this]
      cases hc : containsSub a dupMark with
      | false =>
        simp [hsa, hc, List.filter_cons, compFlagLoop_true_eq, hrest]
      | true =>
        simp [hsa, hc, List.filter_cons, compFlagLoop_true_eq, hrest]

theorem splitFlagLoop_true_eq (s : String) :
    ∀ l : List String, splitFlagLoop s l true = l := by
  intro l
  induction l with
  | nil => rfl
  | cons a t ih =>
    rw [splitFlagLoop]
    cases hsa : strLe s a <;> simp [ih]

theorem splitFlagLoop_false_eq (s : String) :
    ∀ l : List String, List.Sorted strLeR l →
      splitFlagLoop s l false = l.filter (fun f => strLe s f) := by
  intro l
  induction l with
  | nil => intro _; rfl
  | cons a t ih =>
    intro hs
    rcases List.sorted_cons.mp hs with ⟨hall, hst⟩
    rw [splitFlagLoop]
    cases hsa : strLe s a with
    | false => simp [hsa, List.filter_cons, ih hst]
    | true =>
      have hrest : t.filter (fun f => strLe s f) = t := by
        rw [List.filter_eq_self]
        intro x hx
        exact lexLe_trans s.data a.data x.data hsa (hall x hx)
      simp [hsa, List.filter_cons, splitFlagLoop_true_eq, hrest]

theorem comparatorRelevant_eq (fs : FS) (folder : String) (start : Option String) :
    comparatorRelevant fs folder start = refCandidates fs folder (start.getD "") :=
  compFlagLoop_false_eq (start.getD "") _ (sorted_sortStrings _)

theorem sort_filter_comm (L : List String) (s : String) (base : String → Bool) :
    (sortStrings (L.filter (fun f => base f && !containsSub f dupMark))).filter
      (fun f => strLe s f) =
    (sortStrings (L.filter base)).filter
      (fun f => strLe s f && !containsSub f dupMark) := by
  apply List.eq_of_perm_of_sorted (r := strLeR)
  · have p1 : ((sortStrings (L.filter (fun f => base f && !containsSub f dupMark))).filter
        (fun f => strLe s f)).Perm
        ((L.filter (fun f => base f && !containsSub f dupMark)).filter
          (fun f => strLe s f)) := (perm_sortStrings _).filter _
    have p2 : ((sortStrings (L.filter base)).filter
        (fun f => strLe s f && !containsSub f dupMark)).Perm
        ((L.filter base).filter
          (fun f => strLe s f && !containsSub f dupMark)) := (perm_sortStrings _).filter _
    have heq : (L.filter (fun f => base f && !containsSub f dupMark)).filter
        (fun f => strLe s f) =
        (L.filter base).filter (fun f => strLe s f && !containsSub f dupMark) := by
      rw [List.filter_filter, List.filter_filter]
      exact List.filter_congr (fun x _ => by
        cases base x <;> cases containsSub x dupMark <;> cases strLe s x <;> rfl)
    exact p1.trans (heq ▸ p2.symm)
  · exact List.Sorted.filter _ (sorted_sortStrings _)
  · exact List.Sorted.filter _ (sorted_sortStrings _)

theorem splitterRelevant_eq (fs : FS) (folder : String) (arg : Option String) :
    splitterRelevant fs folder arg = refCandidates fs folder (arg.getD "") := by
  have hall : ∀ (l : List String), l.filter (fun f => strLe "" f) = l :=
    fun l => List.filter_eq_self.mpr (fun a _ => rfl)
  have hnone :
      sortStrings ((osListdir fs folder).filter
        (fun f => isImageName f && isfileF fs (pathJoin folder f) && !containsSub f dupMark)) =
      refCandidates fs folder "" := by
    rw [← hall (sortStrings ((osListdir fs folder).filter
      (fun f => isImageName f && isfileF fs (pathJoin folder f) && !containsSub f dupMark)))]
    exact sort_filter_comm (osListdir fs folder) ""
      (fun f => isImageName f && isfileF fs (pathJoin folder f))
  cases arg with
  | none => exact hnone
  | some s =>
    show (if s = "" then _ else splitFlagLoop s _ false) = _
    by_cases hse : s = ""
    · rw [if_pos hse, hse]
      exact hnone
    · rw [if_neg hse]
      rw [splitFlagLoop_false_eq s _ (sorted_sortStrings _)]
      exact sort_filter_comm (osListdir fs folder) s
        (fun f => isImageName f && isfileF fs (pathJoin folder f))

/-- Concrete folder for the C5 example: `a.jpg`, `m.jpg`, `z.jpg`. -/
def c5FS : FS := ⟨[], [⟨"d/a.jpg", px 0⟩, ⟨"d/m.jpg", px 0⟩, ⟨"d/z.jpg", px 0⟩]⟩

/-- Claim C5: the Duplicate Detector's candidate list and the Splitter
CLI's flag-based candidate list both equal the reference definition
(extension filter, lexical sort, keep names at-or-after the start that do
not contain `-DUP`); in particular, starting filename `m` over `a.jpg`,
`m.jpg`, `z.jpg` selects exactly `m.jpg` and `z.jpg`. -/
theorem claim_C5_candidate_lists (fs : FS) (folder : String) (start : Option String) :
    comparatorRelevant fs folder start = refCandidates fs folder (start.getD "") ∧
    splitterRelevant fs folder start = refCandidates fs folder (start.getD "") ∧
    comparatorRelevant c5FS "d" (some "m") = ["m.jpg", "z.jpg"] ∧
    splitterRelevant c5FS "d" (some "m") = ["m.jpg", "z.jpg"] :=
  ⟨comparatorRelevant_eq fs folder start, splitterRelevant_eq fs folder start,
    by decide, by decide⟩

/-! ### Claim C3 -/

theorem find_rename_other (l : List FileEntry) (old new p : String)
    (hpo : p ≠ old) (hpn : p ≠ new) :
    ((l.filter (fun e => e.path ≠ new)).map
      (fun e => if e.path = old then ⟨new, e.img⟩ else e)).find? (fun e => e.path = p) =
    l.find? (fun e => e.path = p) := by
  induction l with
  | nil => rfl
  | cons a t ih =>
    by_cases han : a.path = new
    · rw [List.filter_cons, if_neg (by simp [han])]
      rw [List.find?_cons_of_neg _ (by simp [han, Ne.symm hpn])]
      exact ih
    · rw [List.filter_cons, if_pos (by simp [han]), List.map_cons]
      by_cases hao : a.path = old
      · rw [if_pos hao]
        rw [List.find?_cons_of_neg _ (by simp [Ne.symm hpn]),
          List.find?_cons_of_neg _ (by simp [hao, Ne.symm hpo])]
        exact ih
      · rw [if_neg hao]
        by_cases hap : a.path = p
        · rw [List.find?_cons_of_pos _ (by simp [hap]), List.find?_cons_of_pos _ (by simp [hap])]
        · rw [List.find?_cons_of_neg _ (by simp [hap]), List.find?_cons_of_neg _ (by simp [hap])]
          exact ih

theorem find_rename_new (l : List FileEntry) (old new : String) (hon : old ≠ new)
    (h : (l.find? (fun e => e.path = old)).isSome = true) :
    (((l.filter (fun e => e.path ≠ new)).map
      (fun e => if e.path = old then ⟨new, e.img⟩ else e)).find?
        (fun e => e.path = new)).isSome = true := by
  induction l with
  | nil => simp [List.find?] at h
  | cons a t ih =>
    by_cases hao : a.path = old
    · rw [List.filter_cons, if_pos (by simp [hao, hon]), List.map_cons, if_pos hao]
      rw [List.find?_cons_of_pos _ (by simp)]
      rfl
    · rw [List.find?_cons_of_neg _ (by simp [hao])] at h
      by_cases han : a.path = new
      · rw [List.filter_cons, if_neg (by simp [han])]
        exact ih h
      · rw [List.filter_cons, if_pos (by simp [han]), List.map_cons, if_neg hao]
        rw [List.find?_cons_of_neg _ (by simp [han])]
        exact ih h

theorem isfileF_rename_other (fs : FS) (old new p : String)
    (hpo : p ≠ old) (hpn : p ≠ new) :
    isfileF (renameFS fs old new) p = isfileF fs p :=
  congrArg Option.isSome (find_rename_other fs.files old new p hpo hpn)

theorem isfileF_rename_new (fs : FS) (old new : String) (hon : old ≠ new)
    (h : isfileF fs old = true) :
    isfileF (renameFS fs old new) new = true :=
  find_rename_new fs.files old new hon h

theorem existsF_rename_other (fs : FS) (old new p : String)
    (hpo : p ≠ old) (hpn : p ≠ new) :
    existsF (renameFS fs old new) p = existsF fs p := by
  unfold existsF
  rw [isfileF_rename_other fs old new p hpo hpn]
  rfl

theorem decodeImg_rename_other (env : Env) (fs : FS) (old new p : String)
    (hpo : p ≠ old) (hpn : p ≠ new) :
    decodeImg env (renameFS fs old new) p = decodeImg env fs p := by
  unfold decodeImg
  rw [show findFile (renameFS fs old new) p = findFile fs p from
    find_rename_other fs.files old new p hpo hpn]

theorem compare_rename_other (env : Env) (fs : FS) (old new p1 p2 : String)
    (frac thr : ℚ) (h1o : p1 ≠ old) (h1n : p1 ≠ new) (h2o : p2 ≠ old) (h2n : p2 ≠ new) :
    compare_images_visually env (renameFS fs old new) p1 p2 frac thr =
      compare_images_visually env fs p1 p2 frac thr := by
  unfold compare_images_visually
  rw [decodeImg_rename_other env fs old new p1 h1o h1n,
    decodeImg_rename_other env fs old new p2 h2o h2n]

/-- Claim C3: in a sweep over candidates `A`, `B`, `C` (sorted order) where
`A`-vs-`B` is judged duplicate and `B`-vs-`C` (equivalently, since `B`
duplicates `A`, `A`-vs-`C`) is judged materially different, the sweep
renames `B` by inserting `-DUP` before its extension while `A` stays the
reference — the second comparison performed is `A` against `C`, not `B`
against `C` — updates the in-memory list to `B`'s new name, then makes `C`
the new reference and leaves `C` unrenamed. -/
theorem claim_C3_reference_chaining (env : Env) (fs : FS) (folder a b c : String)
    (frac thr : ℚ)
    (hDa : containsSub a dupMark = false)
    (hDb : containsSub b dupMark = false)
    (hDc : containsSub c dupMark = false)
    (hEa : existsF fs (pathJoin folder a) = true)
    (hFb : isfileF fs (pathJoin folder b) = true)
    (hEc : existsF fs (pathJoin folder c) = true)
    (haneb : pathJoin folder a ≠ pathJoin folder b)
    (hanebd : pathJoin folder a ≠ pathJoin folder (dupName b))
    (hcneb : pathJoin folder c ≠ pathJoin folder b)
    (hcnebd : pathJoin folder c ≠ pathJoin folder (dupName b))
    (hbnebd : pathJoin folder b ≠ pathJoin folder (dupName b))
    (hren : env.renameOk (pathJoin folder b) (pathJoin folder (dupName b)) = true)
    (hcmpAB : compare_images_visually env fs (pathJoin folder a) (pathJoin folder b)
      frac thr = false)
    (hcmpBC : compare_images_visually env fs (pathJoin folder b) (pathJoin folder c)
      frac thr = true)
    (hcmpAC : compare_images_visually env fs (pathJoin folder a) (pathJoin folder c)
      frac thr = true) :
    sweepLoop env folder frac thr ⟨[a, b, c], fs, a, 1, [], []⟩ =
      .ok ⟨[a, dupName b, c],
        renameFS fs (pathJoin folder b) (pathJoin folder (dupName b)),
        c, 3, [(a, b), (a, c)], [b]⟩ ∧
    isfileF (renameFS fs (pathJoin folder b) (pathJoin folder (dupName b)))
      (pathJoin folder (dupName b)) = true ∧
    existsF (renameFS fs (pathJoin folder b) (pathJoin folder (dupName b)))
      (pathJoin folder c) = true := by
  have hEb : existsF fs (pathJoin folder b) = true := by
    unfold existsF
    rw [hFb]
    rfl
  set fs1 := renameFS fs (pathJoin folder b) (pathJoin folder (dupName b)) with hfs1
  have hEa1 : existsF fs1 (pathJoin folder a) = true := by
    rw [hfs1, existsF_rename_other fs _ _ _ haneb hanebd]
    exact hEa
  have hEc1 : existsF fs1 (pathJoin folder c) = true := by
    rw [hfs1, existsF_rename_other fs _ _ _ hcneb hcnebd]
    exact hEc
  have hcmpAC1 : compare_images_visually env fs1 (pathJoin folder a) (pathJoin folder c)
      frac thr = true := by
    rw [hfs1, compare_rename_other env fs _ _ _ _ frac thr haneb hanebd hcneb hcnebd]
    exact hcmpAC
  have hstep1 : sweepStep env folder frac thr ⟨[a, b, c], fs, a, 1, [], []⟩ =
      .next ⟨[a, dupName b, c], fs1, a, 2, [(a, b)], [b]⟩ := by
    rw [sweepStep_eq]
    simp [hDa, hEa, hEb, hcmpAB, hren]
  have hstep2 : sweepStep env folder frac thr ⟨[a, dupName b, c], fs1, a, 2, [(a, b)], [b]⟩ =
      .next ⟨[a, dupName b, c], fs1, c, 3, [(a, b), (a, c)], [b]⟩ := by
    rw [sweepStep_eq]
    simp [hDa, hEa1, hEc1, hcmpAC1]
  have hstep3 : sweepStep env folder frac thr ⟨[a, dupName b, c], fs1, c, 3, [(a, b), (a, c)], [b]⟩ =
      .done ⟨[a, dupName b, c], fs1, c, 3, [(a, b), (a, c)], [b]⟩ := by
    rw [sweepStep_eq]
    rfl
  refine ⟨?_, isfileF_rename_new fs _ _ hbnebd hFb, hEc1⟩
  show sweepGo env folder frac thr (([a, b, c] : List String).length + 1)
    ⟨[a, b, c], fs, a, 1, [], []⟩ = _
  rw [sweepGo, hstep1]
  show sweepGo env folder frac thr (2 + 1) ⟨[a, dupName b, c], fs1, a, 2, [(a, b)], [b]⟩ = _
  rw [sweepGo, hstep2]
  show sweepGo env folder frac thr (1 + 1)
    ⟨[a, dupName b, c], fs1, c, 3, [(a, b), (a, c)], [b]⟩ = _
  rw [sweepGo, hstep3]

/-- Witness for claim C3 on a concrete folder: `a.jpg` and `b.jpg` identical,
`c.jpg` different. -/
theorem claim_C3_witness :
    sweepLoop wEnv "d" 1 1 ⟨["a.jpg", "b.jpg", "c.jpg"], c1Snap, "a.jpg", 1, [], []⟩ =
      .ok ⟨["a.jpg", dupName "b.jpg", "c.jpg"],
        renameFS c1Snap (pathJoin "d" "b.jpg") (pathJoin "d" (dupName "b.jpg")),
        "c.jpg", 3, [("a.jpg", "b.jpg"), ("a.jpg", "c.jpg")], ["b.jpg"]⟩ ∧
    isfileF (renameFS c1Snap (pathJoin "d" "b.jpg") (pathJoin "d" (dupName "b.jpg")))
      (pathJoin "d" (dupName "b.jpg")) = true ∧
    existsF (renameFS c1Snap (pathJoin "d" "b.jpg") (pathJoin "d" (dupName "b.jpg")))
      (pathJoin "d" "c.jpg") = true :=
  claim_C3_reference_chaining wEnv c1Snap "d" "a.jpg" "b.jpg" "c.jpg" 1 1
    (by decide) (by decide) (by decide) (by decide) (by decide) (by decide)
    (by decide) (by decide) (by decide) (by decide) (by decide)
    (by decide) (by decide) (by decide) (by decide)

/-! ### Claim C8 -/

theorem getD_eq_of_lt {α : Type} (l : List α) (k : Nat) (d : α) (hk : k < l.length) :
    l.getD k d = l[k] := by
  rw [List.getD_eq_getElem?_getD, List.getElem?_eq_getElem hk]
  rfl

theorem getD_mem_of_lt {α : Type} (l : List α) (k : Nat) (d : α) (hk : k < l.length) :
    l.getD k d ∈ l := by
  rw [getD_eq_of_lt l k d hk]
  exact List.getElem_mem hk

theorem headD_eq_getD_zero {α : Type} (l : List α) (d : α) : l.headD d = l.getD 0 d := by
  cases l <;> rfl

theorem getD_drop {α : Type} (l : List α) (n m : Nat) (d : α) :
    (l.drop n).getD m d = l.getD (n + m) d := by
  rw [List.getD_eq_getElem?_getD, List.getD_eq_getElem?_getD, List.getElem?_drop]

theorem findFrom_spec (fs : FS) (folder : String) :
    ∀ (l : List String) (j0 j : Nat) (f : String),
      findFrom fs folder l j0 = some (j, f) →
      j0 ≤ j ∧ j - j0 < l.length ∧ l.getD (j - j0) "" = f ∧
        containsSub f dupMark = false := by
  intro l
  induction l with
  | nil => intro j0 j f h; simp [findFrom] at h
  | cons a t ih =>
    intro j0 j f h
    rw [findFrom] at h
    split at h
    · rename_i hcond
      cases h
      refine ⟨le_refl _, by simp, by simp, ?_⟩
      rw [Bool.and_eq_true] at hcond
      simpa using hcond.1
    · obtain ⟨h1, h2, h3, h4⟩ := ih (j0 + 1) j f h
      refine ⟨by omega, by simp; omega, ?_, h4⟩
      rw [show j - j0 = (j - (j0 + 1)) + 1 by omega]
      simpa using h3

theorem sweepStep_done_eq (env : Env) (folder : String) (frac thr : ℚ)
    (s s' : SweepState) (h : sweepStep env folder frac thr s = .done s') : s' = s := by
  rw [sweepStep_eq] at h
  split at h
  · split at h
    · split at h
      · cases h
      · cases h; rfl
    · split at h
      · split at h
        · split at h
          · cases h
          · cases h
        · cases h
      · cases h
  · cases h; rfl

theorem sweepStep_err_eq (env : Env) (folder : String) (frac thr : ℚ)
    (s s' : SweepState) (h : sweepStep env folder frac thr s = .err s') : s' = s := by
  rw [sweepStep_eq] at h
  split at h
  · split at h
    · split at h
      · cases h
      · cases h
    · split at h
      · split at h
        · split at h
          · cases h
          · cases h
        · cases h
      · cases h; rfl
  · cases h

/-- The sweep-loop invariant for claim C8, relative to the initial candidate
list `files0`: the in-memory list keeps its length and its not-yet-visited
suffix, the reference is an un-`DUP`-marked candidate from strictly before
the cursor, the cursor stays past the first entry, every comparison
recorded so far is between two distinct un-`DUP`-marked names, and every
renamed file is a candidate from index 1 onward. -/
def SweepInv (files0 : List String) (s : SweepState) : Prop :=
  s.files.length = files0.length ∧
  (∀ k, s.i ≤ k → s.files.getD k "" = files0.getD k "") ∧
  containsSub s.refName dupMark = false ∧
  (∃ kr, kr < s.i ∧ kr < files0.length ∧ files0.getD kr "" = s.refName) ∧
  1 ≤ s.i ∧
  (∀ pr ∈ s.trace, containsSub pr.1 dupMark = false ∧
    containsSub pr.2 dupMark = false ∧ pr.1 ≠ pr.2) ∧
  (∀ nm ∈ s.renamed, ∃ kn, 1 ≤ kn ∧ kn < files0.length ∧ files0.getD kn "" = nm)

theorem sweepInv_step (env : Env) (folder : String) (frac thr : ℚ) (files0 : List String)
    (hnd : files0.Nodup) (hnodup0 : ∀ f ∈ files0, containsSub f dupMark = false)
    (s s' : SweepState) (hInv : SweepInv files0 s)
    (h : sweepStep env folder frac thr s = .next s') : SweepInv files0 s' := by
  obtain ⟨hlen, hsuff, hrefD, ⟨kr, hkr1, hkr2, hkr3⟩, hi1, htr, hrn⟩ := hInv
  rw [sweepStep_eq] at h
  split at h
  · rename_i hlt
    have hilen0 : s.i < files0.length := by omega
    have hget : s.files.get ⟨s.i, hlt⟩ = files0.getD s.i "" := by
      have h1 := hsuff s.i (le_refl _)
      rw [getD_eq_of_lt _ _ _ hlt] at h1
      rw [List.get_eq_getElem]
      exact h1
    have hnextmem : files0.getD s.i "" ∈ files0 := getD_mem_of_lt _ _ _ hilen0
    have hnextnd : containsSub (files0.getD s.i "") dupMark = false := hnodup0 _ hnextmem
    have hrefne : s.refName ≠ files0.getD s.i "" := by
      intro hcon
      rw [← hkr3] at hcon
      rw [getD_eq_of_lt _ _ _ hkr2, getD_eq_of_lt _ _ _ hilen0] at hcon
      have := (List.Nodup.getElem_inj_iff hnd).mp hcon
      omega
    split at h
    · split at h
      · rename_i j f heq
        obtain ⟨hj0, hjlen, hjval, hjnd⟩ := findFrom_spec _ _ _ _ _ _ heq
        cases h
        have hjlt : j < files0.length := by
          rw [List.length_drop] at hjlen
          omega
        have hf0 : files0.getD j "" = f := by
          rw [getD_drop] at hjval
          rw [show s.i + (j - s.i) = j by omega] at hjval
          rw [← hjval]
          exact (hsuff j hj0).symm
        refine ⟨hlen, ?_, hjnd, ⟨j, by show j < j + 1; omega, hjlt, hf0⟩,
          by show 1 ≤ j + 1; omega, htr, hrn⟩
        intro k hk
        have hk' : j + 1 ≤ k := hk
        exact hsuff k (by omega)
      · cases h
    · have htr' : ∀ pr ∈ s.trace ++ [(s.refName, s.files.get ⟨s.i, hlt⟩)],
          containsSub pr.1 dupMark = false ∧ containsSub pr.2 dupMark = false ∧
            pr.1 ≠ pr.2 := by
        intro pr hpr
        rcases List.mem_append.mp hpr with hpr | hpr
        · exact htr pr hpr
        · rw [List.mem_singleton] at hpr
          subst hpr
          refine ⟨hrefD, ?_, ?_⟩
          · rw [hget]
            exact hnextnd
          · rw [hget]
            exact hrefne
      split at h
      · split at h
        · split at h
          · cases h
            refine ⟨?_, ?_, hrefD, ⟨kr, by show kr < s.i + 1; omega, hkr2, hkr3⟩,
              by show 1 ≤ s.i + 1; omega, htr', ?_⟩
            · simpa [List.length_set] using hlen
            · intro k hk
              have hk' : s.i + 1 ≤ k := hk
              rw [List.getD_eq_getElem?_getD, List.getElem?_set, if_neg (by omega),
                ← List.getD_eq_getElem?_getD]
              exact hsuff k (by omega)
            · intro nm hnm
              rcases List.mem_append.mp hnm with hnm | hnm
              · exact hrn nm hnm
              · rw [List.mem_singleton] at hnm
                subst hnm
                exact ⟨s.i, hi1, hilen0, hget.symm⟩
          · cases h
            exact ⟨hlen,
              fun k hk => hsuff k (by have hk' : s.i + 1 ≤ k := hk; omega), hrefD,
              ⟨kr, by show kr < s.i + 1; omega, hkr2, hkr3⟩,
              by show 1 ≤ s.i + 1; omega, htr', hrn⟩
        · cases h
          refine ⟨hlen,
            fun k hk => hsuff k (by have hk' : s.i + 1 ≤ k := hk; omega), ?_,
            ⟨s.i, by show s.i < s.i + 1; omega, hilen0, hget.symm⟩,
            by show 1 ≤ s.i + 1; omega, htr', hrn⟩
          rw [hget]
          exact hnextnd
      · cases h
  · cases h

theorem sweepGo_inv (env : Env) (folder : String) (frac thr : ℚ) (files0 : List String)
    (hnd : files0.Nodup) (hnodup0 : ∀ f ∈ files0, containsSub f dupMark = false) :
    ∀ (fuel : Nat) (s : SweepState), SweepInv files0 s →
      SweepInv files0 (finalState (sweepGo env folder frac thr fuel s)) := by
  intro fuel
  induction fuel with
  | zero => intro s hs; exact hs
  | succ f ih =>
    intro s hs
    rw [sweepGo]
    cases hstep : sweepStep env folder frac thr s with
    | done s' =>
      rw [sweepStep_done_eq env folder frac thr s s' hstep]
      exact hs
    | err s' =>
      rw [sweepStep_err_eq env folder frac thr s s' hstep]
      exact hs
    | next s' => exact ih s' (sweepInv_step env folder frac thr files0 hnd hnodup0 s s' hs hstep)

theorem rddFull_trace_renamed (env : Env) (snap fs : FS) (folder : String)
    (start : Option String) (frac thr : ℚ)
    (hnd0 : (comparatorRelevant snap folder start).Nodup)
    (hnodup0 : ∀ f ∈ comparatorRelevant snap folder start,
      containsSub f dupMark = false) :
    (∀ pr ∈ (finalState (rddFull env snap fs folder start frac thr)).trace,
      containsSub pr.1 dupMark = false ∧ containsSub pr.2 dupMark = false ∧
        pr.1 ≠ pr.2) ∧
    (∀ nm ∈ (finalState (rddFull env snap fs folder start frac thr)).renamed,
      ∃ kn, 1 ≤ kn ∧ kn < (comparatorRelevant snap folder start).length ∧
        (comparatorRelevant snap folder start).getD kn "" = nm) := by
  rw [rddFull_eq]
  split
  · constructor
    · intro pr hpr
      simp [finalState] at hpr
    · intro nm hnm
      simp [finalState] at hnm
  · rename_i hge2
    have hlen2 : 2 ≤ (comparatorRelevant snap folder start).length := by omega
    have hInv0 : SweepInv (comparatorRelevant snap folder start)
        ⟨comparatorRelevant snap folder start, fs,
          (comparatorRelevant snap folder start).headD "", 1, [], []⟩ := by
      refine ⟨rfl, fun k _ => rfl, ?_,
        ⟨0, Nat.zero_lt_one, by omega, (headD_eq_getD_zero _ _).symm⟩, le_refl _, ?_, ?_⟩
      · rw [headD_eq_getD_zero]
        exact hnodup0 _ (getD_mem_of_lt _ _ _ (by omega))
      · intro pr hpr
        exact absurd hpr (List.not_mem_nil _)
      · intro nm hnm
        exact absurd hnm (List.not_mem_nil _)
    have hfin := sweepGo_inv env folder frac thr (comparatorRelevant snap folder start)
      hnd0 hnodup0 ((comparatorRelevant snap folder start).length + 1)
      ⟨comparatorRelevant snap folder start, fs,
        (comparatorRelevant snap folder start).headD "", 1, [], []⟩ hInv0
    obtain ⟨_, _, _, _, _, htrF, hrnF⟩ := hfin
    exact ⟨htrF, hrnF⟩

/-- Claim C8: throughout every sweep, a `-DUP`-marked filename is never
the initial reference and is never compared, no file is compared to
itself, and the first file of the filtered sorted list is never renamed. -/
theorem claim_C8_sweep_invariants (env : Env) (fs : FS) (folder : String)
    (start : Option String) (frac thr : ℚ)
    (hnd : (osListdir fs folder).Nodup) :
    (∀ f, (comparatorRelevant fs folder start).head? = some f →
      containsSub f dupMark = false) ∧
    (∀ pr ∈ (finalState (rddFull env fs fs folder start frac thr)).trace,
      containsSub pr.1 dupMark = false ∧ containsSub pr.2 dupMark = false ∧
        pr.1 ≠ pr.2) ∧
    (∀ nm ∈ (finalState (rddFull env fs fs folder start frac thr)).renamed,
      (comparatorRelevant fs folder start).head? ≠ some nm) := by
  have hnd0 : (comparatorRelevant fs folder start).Nodup := by
    rw [comparatorRelevant_eq]
    unfold refCandidates
    exact List.Nodup.filter _ ((perm_sortStrings _).symm.nodup (List.Nodup.filter _ hnd))
  have hnodup0 : ∀ f ∈ comparatorRelevant fs folder start,
      containsSub f dupMark = false := by
    intro f hf
    rw [comparatorRelevant_eq] at hf
    unfold refCandidates at hf
    have h2 := (List.mem_filter.mp hf).2
    rw [Bool.and_eq_true] at h2
    simpa using h2.2
  obtain ⟨htrF, hrnF⟩ :=
    rddFull_trace_renamed env fs fs folder start frac thr hnd0 hnodup0
  refine ⟨fun f hf => hnodup0 f (List.mem_of_mem_head? hf), htrF, ?_⟩
  intro nm hnm hcon
  obtain ⟨kn, hkn1, hkn2, hkn3⟩ := hrnF nm hnm
  have h0 : (comparatorRelevant fs folder start).getD 0 "" = nm := by
    cases hF : comparatorRelevant fs folder start with
    | nil => rw [hF] at hcon; simp at hcon
    | cons x t =>
      rw [hF] at hcon
      simp at hcon
      simpa using hcon
  have hkn0 : kn = 0 := by
    rw [← h0] at hkn3
    rw [getD_eq_of_lt _ _ _ hkn2,
      getD_eq_of_lt _ _ _ (by omega : 0 < (comparatorRelevant fs folder start).length)]
      at hkn3
    exact (List.Nodup.getElem_inj_iff hnd0).mp hkn3
  omega

/-- Witness for claim C8 on the concrete three-file folder. -/
theorem claim_C8_witness :
    (∀ f, (comparatorRelevant c1Snap "d" none).head? = some f →
      containsSub f dupMark = false) ∧
    (∀ pr ∈ (finalState (rddFull wEnv c1Snap c1Snap "d" none 1 1)).trace,
      containsSub pr.1 dupMark = false ∧ containsSub pr.2 dupMark = false ∧
        pr.1 ≠ pr.2) ∧
    (∀ nm ∈ (finalState (rddFull wEnv c1Snap c1Snap "d" none 1 1)).renamed,
      (comparatorRelevant c1Snap "d" none).head? ≠ some nm) :=
  claim_C8_sweep_invariants wEnv c1Snap "d" none 1 1 (by decide)
